import Mathlib

/-!
Shallow embedding of the cgroup freeze/thaw controller found in the
repository source (the cgroup v2 freezer core together with the legacy
freezer subsystem carrying the OEM fork-time extension).

Groups and tasks are identified by natural numbers.  The static shape of
the group tree (parent chains, pre-order descendant enumerations, the
collaborator-maintained descendant counts and the liveness predicate) is
collected in a `Hier` record; the mutable bookkeeping state (per-group
flags and counters, per-task flags, the global legacy freezing counter
and an event log recording the externally visible actions) lives in
`State`.  Every function below is a direct translation of the
correspondingly named C function of the source file.
-/

namespace CgroupFreezer

/-- Externally visible actions recorded by the model: the jobctl-based
freeze/thaw request of the v2 core (`cgroup_freeze_task`), event-file
notifications (`cgroup_file_notify`), the re-entry into the signal loop
(`recalc_sigpending`), and the legacy per-task freeze/thaw requests. -/
inductive Event where
  | freezeTask (tid : Nat) (freeze : Bool)
  | notify (gid : Nat)
  | recalcSigpending (tid : Nat)
  | freezeLegacy (tid : Nat)
  | thaw (tid : Nat)
deriving DecidableEq, Repr

/-- Per-group state of the cgroup v2 freezer core: `freeze` is
`cgrp->freezer.freeze`, `cgrpFreeze`/`cgrpFrozen` are the `CGRP_FREEZE` /
`CGRP_FROZEN` bits of `cgrp->flags`, `eFreeze` is `cgrp->freezer.e_freeze`,
and the two counters are `nr_frozen_tasks` / `nr_frozen_descendants`. -/
structure GroupState where
  freeze : Bool := false
  cgrpFreeze : Bool := false
  cgrpFrozen : Bool := false
  eFreeze : Int := 0
  nrFrozenTasks : Int := 0
  nrFrozenDescendants : Int := 0
deriving DecidableEq, Repr

/-- Per-group state of the legacy freezer subsystem (`struct freezer`):
the `CGROUP_FREEZER_ONLINE`, `CGROUP_FREEZING_SELF`,
`CGROUP_FREEZING_PARENT` and `CGROUP_FROZEN` flags of `freezer->state`
as individual booleans, plus the OEM `oem_freeze_flag` field. -/
structure LegacyState where
  online : Bool := false
  freezingSelf : Bool := false
  freezingParent : Bool := false
  frozen : Bool := false
  oemFreezeFlag : Nat := 0
deriving DecidableEq, Repr

/-- The `CGROUP_FREEZING` union: `FREEZING_SELF | FREEZING_PARENT`. -/
def legFreezing (f : LegacyState) : Bool :=
  f.freezingSelf || f.freezingParent

/-- Which `CGROUP_FREEZING_*` flag `freezer_apply_state` is asked to set
or clear. -/
inductive FreezingBit where
  | self
  | parent
deriving DecidableEq, Repr

/-- Per-task state: the owning group (`task_dfl_cgroup`), the
`task->frozen` field, the kernel-thread flag (`PF_KTHREAD`), whether the
task is about to die (so that `lock_task_sighand` fails), the
`JOBCTL_TRAP_FREEZE` bit of `task->jobctl`, and the real credentials
(`real_cred` presence and `real_cred->uid.val`) used by the legacy
unfreeze path. -/
structure TaskState where
  owner : Nat := 0
  frozen : Bool := false
  kthread : Bool := false
  dying : Bool := false
  jobctlTrapFreeze : Bool := false
  hasCred : Bool := true
  uid : Nat := 0
deriving DecidableEq, Repr

/-- Static shape of the group tree, consumed from the process-group tree
collaborator: the list of groups, the strict-ancestor chain of each group
(nearest ancestor first, as walked by `cgroup_parent`), the pre-order
descendant enumeration rooted at each group (as produced by
`css_for_each_descendant_pre`, the root itself first), the
collaborator-maintained `nr_descendants` counts, and the
`cgroup_is_dead` predicate. -/
structure Hier where
  groups : List Nat
  anc : Nat → List Nat
  descPre : Nat → List Nat
  nrDescendants : Nat → Nat
  dead : Nat → Bool

/-- The mutable bookkeeping state: per-group v2 and legacy records,
per-task records, the list of live tasks in the whole system, the global
`system_freezing_cnt`, a flag recording whether any `WARN_ON_ONCE`
invariant assertion has fired, and the append-only event log. -/
structure State where
  grp : Nat → GroupState
  leg : Nat → LegacyState
  tsk : Nat → TaskState
  tids : List Nat
  systemFreezingCnt : Int := 0
  warned : Bool := false
  log : List Event := []

def updGrp (s : State) (i : Nat) (f : GroupState → GroupState) : State :=
  { s with grp := fun j => if j = i then f (s.grp j) else s.grp j }

def updLeg (s : State) (i : Nat) (f : LegacyState → LegacyState) : State :=
  { s with leg := fun j => if j = i then f (s.leg j) else s.leg j }

def updTsk (s : State) (i : Nat) (f : TaskState → TaskState) : State :=
  { s with tsk := fun j => if j = i then f (s.tsk j) else s.tsk j }

def pushLog (s : State) (e : Event) : State :=
  { s with log := s.log ++ [e] }

/-- Tasks currently attached to group `c`, as enumerated by
`css_task_iter` (kernel threads included). -/
def tasksOf (s : State) (c : Nat) : List Nat :=
  s.tids.filter (fun t => (s.tsk t).owner == c)

/-- Modelled from the spec: `__cgroup_task_count` is not part of the
provided sources (it lives in the cgroup core, outside the freezer
file).  Per the spec, `own_task_count` is the number of live processes
directly owned by the group, and exempt (kernel-thread) processes are
never counted toward the `own_task_count` denominators used for freeze
completion. -/
def countedTasks (s : State) (c : Nat) : List Nat :=
  s.tids.filter (fun t => (s.tsk t).owner == c && !(s.tsk t).kthread)

/-- The denominator used by `cgroup_update_frozen`. -/
def cgroupTaskCount (s : State) (c : Nat) : Int :=
  (countedTasks s c).length

/-- One iteration of the ancestor loop of `cgroup_propagate_frozen`,
acting on ancestor `p` with the current `desc` accumulator: adjust
`nr_frozen_descendants` and flip the `CGRP_FROZEN` bit of a freezing
ancestor whose descendants are now all frozen (resp. force the ancestor
out of the frozen state), bumping `desc` when the bit flipped. -/
def propagateStep (H : Hier) (frozen : Bool) (p : Nat) (s : State)
    (desc : Int) : State × Int :=
  if frozen then
    let s1 := updGrp s p (fun g =>
      { g with nrFrozenDescendants := g.nrFrozenDescendants + desc })
    if !(s1.grp p).cgrpFrozen && (s1.grp p).cgrpFreeze &&
        (s1.grp p).nrFrozenDescendants == (H.nrDescendants p : Int) then
      (pushLog (updGrp s1 p (fun g => { g with cgrpFrozen := true }))
        (Event.notify p), desc + 1)
    else (s1, desc)
  else
    let s1 := updGrp s p (fun g =>
      { g with nrFrozenDescendants := g.nrFrozenDescendants - desc })
    if (s1.grp p).cgrpFrozen then
      (pushLog (updGrp s1 p (fun g => { g with cgrpFrozen := false }))
        (Event.notify p), desc + 1)
    else (s1, desc)

/-- `cgroup_propagate_frozen`: walk the ancestor chain upwards with the
`desc` accumulator. -/
def cgroup_propagate_frozen (H : Hier) : State → Bool → Int → List Nat → State
  | s, _, _, [] => s
  | s, frozen, desc, p :: rest =>
    cgroup_propagate_frozen H (propagateStep H frozen p s desc).1 frozen
      (propagateStep H frozen p s desc).2 rest

/-- `cgroup_update_frozen`: recompute whether `cgrp` is frozen (the
`CGRP_FREEZE` bit is set and all counted tasks are frozen), updating the
`CGRP_FROZEN` bit, notifying, and propagating upwards on a change. -/
def cgroup_update_frozen (H : Hier) (s : State) (c : Nat) : State :=
  let frozen := (s.grp c).cgrpFreeze &&
    (s.grp c).nrFrozenTasks == cgroupTaskCount s c
  if frozen then
    if (s.grp c).cgrpFrozen then s
    else
      let s1 := pushLog (updGrp s c (fun g => { g with cgrpFrozen := true }))
        (Event.notify c)
      cgroup_propagate_frozen H s1 frozen 1 (H.anc c)
  else
    if !(s.grp c).cgrpFrozen then s
    else
      let s1 := pushLog (updGrp s c (fun g => { g with cgrpFrozen := false }))
        (Event.notify c)
      cgroup_propagate_frozen H s1 frozen 1 (H.anc c)

/-- `cgroup_inc_frozen_cnt`. -/
def cgroup_inc_frozen_cnt (s : State) (c : Nat) : State :=
  updGrp s c (fun g => { g with nrFrozenTasks := g.nrFrozenTasks + 1 })

/-- `cgroup_dec_frozen_cnt`, including its `WARN_ON_ONCE` on a negative
result. -/
def cgroup_dec_frozen_cnt (s : State) (c : Nat) : State :=
  let s1 := updGrp s c (fun g => { g with nrFrozenTasks := g.nrFrozenTasks - 1 })
  if (s1.grp c).nrFrozenTasks < 0 then { s1 with warned := true } else s1

/-- `cgroup_enter_frozen`, executed by task `t` itself. -/
def cgroup_enter_frozen (H : Hier) (s : State) (t : Nat) : State :=
  if (s.tsk t).frozen then s
  else
    let s1 := updTsk s t (fun u => { u with frozen := true })
    let c := (s1.tsk t).owner
    cgroup_update_frozen H (cgroup_inc_frozen_cnt s1 c) c

/-- `cgroup_leave_frozen`, executed by task `t` itself: conditionally
leave the frozen state (skipping the decrement when racing with a
pending freeze), and otherwise force the task back into the
signal-handling loop via `recalc_sigpending`. -/
def cgroup_leave_frozen (H : Hier) (s : State) (t : Nat) (alwaysLeave : Bool) :
    State :=
  let c := (s.tsk t).owner
  let s1 :=
    if alwaysLeave || !(s.grp c).cgrpFreeze then
      let sa := cgroup_update_frozen H (cgroup_dec_frozen_cnt s c) c
      let sb := if !(sa.tsk t).frozen then { sa with warned := true } else sa
      updTsk sb t (fun u => { u with frozen := false })
    else s
  if (s1.tsk t).frozen then pushLog s1 (Event.recalcSigpending t) else s1

/-- `cgroup_freeze_task`: set or clear `JOBCTL_TRAP_FREEZE` and wake the
task (recorded as a `freezeTask` event); a no-op when the task is about
to die (`lock_task_sighand` fails). -/
def cgroup_freeze_task (s : State) (t : Nat) (freeze : Bool) : State :=
  if (s.tsk t).dying then s
  else
    pushLog (updTsk s t (fun u => { u with jobctlTrapFreeze := freeze }))
      (Event.freezeTask t freeze)

/-- `cgroup_do_freeze`: set or clear `CGRP_FREEZE`, issue the per-task
freeze/thaw action to every non-kernel-thread task of the group, and
eagerly revisit the group state when all descendants are already in the
desired state (covering empty leaves). -/
def cgroup_do_freeze (H : Hier) (s : State) (c : Nat) (freeze : Bool) : State :=
  let s1 := updGrp s c (fun g => { g with cgrpFreeze := freeze })
  let s2 := (tasksOf s1 c).foldl
    (fun acc t =>
      if (acc.tsk t).kthread then acc else cgroup_freeze_task acc t freeze) s1
  if (H.nrDescendants c : Int) == (s2.grp c).nrFrozenDescendants then
    cgroup_update_frozen H s2 c
  else s2

/-- `cgroup_freezer_migrate_task`: rebalance the frozen-task counters of
the source and destination groups of a migrating task, revisit both
groups, and force the task to the destination's desired state. -/
def cgroup_freezer_migrate_task (H : Hier) (s : State) (t src dst : Nat) :
    State :=
  if (s.tsk t).kthread then s
  else
    let s1 :=
      if (s.tsk t).frozen then
        cgroup_dec_frozen_cnt (cgroup_inc_frozen_cnt s dst) src
      else s
    let s2 := cgroup_update_frozen H s1 dst
    let s3 := cgroup_update_frozen H s2 src
    cgroup_freeze_task s3 t ((s3.grp dst).cgrpFreeze)

/-- `cgroup_freezer_frozen_exit`: a task dying in the frozen state is
accounted out of its group. -/
def cgroup_freezer_frozen_exit (H : Hier) (s : State) (t : Nat) : State :=
  let c := (s.tsk t).owner
  cgroup_update_frozen H (cgroup_dec_frozen_cnt s c) c

/-- One iteration of the pre-order descendant loop of `cgroup_freeze`,
acting on descendant `d`: skip a dead group, adjust `e_freeze`, prune
the per-task work when the group is already (resp. still) obligated by
another ancestor, warn on a negative depth, and otherwise apply
`cgroup_do_freeze`.  The boolean reports whether `cgroup_do_freeze` ran
(the source's `applied` accumulation). -/
def freezeWalkStep (H : Hier) (s : State) (freeze : Bool) (d : Nat) :
    State × Bool :=
  if H.dead d then (s, false)
  else if freeze then
    let s1 := updGrp s d (fun g => { g with eFreeze := g.eFreeze + 1 })
    if 1 < (s1.grp d).eFreeze then (s1, false)
    else (cgroup_do_freeze H s1 d freeze, true)
  else
    let s1 := updGrp s d (fun g => { g with eFreeze := g.eFreeze - 1 })
    if 0 < (s1.grp d).eFreeze then (s1, false)
    else
      let s2 := if (s1.grp d).eFreeze < 0 then { s1 with warned := true } else s1
      (cgroup_do_freeze H s2 d freeze, true)

/-- The pre-order descendant loop of `cgroup_freeze`.  The returned list
records the groups for which `cgroup_do_freeze` ran (the source's
`applied` flag is its non-emptiness). -/
def cgroup_freeze_walk (H : Hier) : State → Bool → List Nat → State × List Nat
  | s, _, [] => (s, [])
  | s, freeze, d :: rest =>
    ((cgroup_freeze_walk H (freezeWalkStep H s freeze d).1 freeze rest).1,
     if (freezeWalkStep H s freeze d).2 then
       d :: (cgroup_freeze_walk H (freezeWalkStep H s freeze d).1 freeze rest).2
     else (cgroup_freeze_walk H (freezeWalkStep H s freeze d).1 freeze rest).2)

/-- `cgroup_freeze`: the administrative entry point.  A no-op when the
requested value is already recorded; otherwise record it and propagate
the change down the subtree, notifying the user directly when the walk
applied no actual state change. -/
def cgroup_freeze (H : Hier) (s : State) (c : Nat) (freeze : Bool) : State :=
  if (s.grp c).freeze == freeze then s
  else
    let s0 := updGrp s c (fun g => { g with freeze := freeze })
    let r := cgroup_freeze_walk H s0 freeze (H.descPre c)
    if r.2.isEmpty then pushLog r.1 (Event.notify c) else r.1

/-- `freeze_cgroup` of the legacy subsystem: issue the per-task freeze
request to every task of the group.  Modelled from the spec: the
per-task primitive `freeze_cgroup_task` is the process-scheduling
collaborator's `request_quiesce`, recorded as a `freezeLegacy` event. -/
def freeze_cgroup (s : State) (c : Nat) : State :=
  (tasksOf s c).foldl (fun acc t => pushLog acc (Event.freezeLegacy t)) s

/-- `unfreeze_cgroup` of the legacy subsystem: thaw every task of the
group, remembering the real UID of the last credentialled task
(`tmp_uid_val` starts as `(uid_t)-1`), and then additionally thaw every
thread in the system whose real UID equals that remembered value.
`__thaw_task` is the collaborator's `request_resume`, recorded as a
`thaw` event. -/
def unfreeze_cgroup (s : State) (c : Nat) : State :=
  let r := (tasksOf s c).foldl
    (fun (p : State × Nat) t =>
      (pushLog p.1 (Event.thaw t),
       if ((p.1).tsk t).hasCred then ((p.1).tsk t).uid else p.2))
    (s, 4294967295)
  r.1.tids.foldl
    (fun acc p =>
      if (acc.tsk p).hasCred && (acc.tsk p).uid == r.2 then
        pushLog acc (Event.thaw p)
      else acc)
    r.1

def setFreezingBit (f : LegacyState) (b : FreezingBit) (v : Bool) : LegacyState :=
  match b with
  | FreezingBit.self => { f with freezingSelf := v }
  | FreezingBit.parent => { f with freezingParent := v }

/-- `freezer_apply_state`: apply a freeze/thaw state change to a single
legacy freezer, maintaining the global `system_freezing_cnt` on the
0↔1 transitions of the `CGROUP_FREEZING` union and issuing the per-task
freeze/thaw work. -/
def freezer_apply_state (s : State) (c : Nat) (freeze : Bool)
    (stbit : FreezingBit) : State :=
  if !(s.leg c).online then s
  else if freeze then
    let s1 :=
      if !legFreezing (s.leg c) then
        { s with systemFreezingCnt := s.systemFreezingCnt + 1 }
      else s
    let s2 := updLeg s1 c (fun f => setFreezingBit f stbit true)
    freeze_cgroup s2 c
  else
    let wasFreezing := legFreezing (s.leg c)
    let s1 := updLeg s c (fun f => setFreezingBit f stbit false)
    if !legFreezing (s1.leg c) then
      let s2 :=
        if wasFreezing then
          { s1 with systemFreezingCnt := s1.systemFreezingCnt - 1 }
        else s1
      let s3 := updLeg s2 c (fun f => { f with frozen := false })
      unfreeze_cgroup s3 c
    else s1

/-- One iteration of the pre-order loop of `freezer_change_state`,
acting on descendant `d` of the subtree root `c`: skip freezers whose
css cannot be pinned online, apply `FREEZING_SELF` to the root itself
and the parent's inherited `FREEZING` union as `FREEZING_PARENT` to
every other descendant. -/
def changeStateStep (H : Hier) (c : Nat) (freeze : Bool) (acc : State)
    (d : Nat) : State :=
  if !(acc.leg d).online then acc
  else if d = c then freezer_apply_state acc d freeze FreezingBit.self
  else
    let parentFreezing :=
      match H.anc d with
      | p :: _ => legFreezing (acc.leg p)
      | [] => false
    freezer_apply_state acc d parentFreezing FreezingBit.parent

/-- `freezer_change_state`: record the last-issued intent in the OEM
flag of the subtree root and walk the subtree in pre-order, applying
`FREEZING_SELF` to the root and inheriting the parent's `FREEZING`
union as `FREEZING_PARENT` on every descendant (skipping freezers whose
css cannot be pinned online). -/
def freezer_change_state (H : Hier) (s : State) (c : Nat) (freeze : Bool) :
    State :=
  let s0 := updLeg s c (fun f =>
    { f with oemFreezeFlag := if freeze then 1 else 0 })
  (H.descPre c).foldl (changeStateStep H c freeze) s0

/-- `unfreezer_fork`: the OEM fork-completion hook.  For a task forked
into a non-root group whose freezer recorded a last-issued freeze intent
(`oem_freeze_flag == 1`), change the freezer state with `freeze = 0`,
i.e. thaw the subtree. -/
def unfreezer_fork (H : Hier) (s : State) (t : Nat) : State :=
  let c := (s.tsk t).owner
  if (H.anc c).isEmpty then s
  else if (s.leg c).oemFreezeFlag ≠ 1 then s
  else freezer_change_state H s c false

/-! ### System steps and reachability

The mutating operations of the core are driven by the surrounding
kernel: an administrative write drives `cgroup_freeze`, the signal
handling loop of a task with `JOBCTL_TRAP_FREEZE` set drives
`cgroup_enter_frozen` / `cgroup_leave_frozen`, the migration machinery
drives `cgroup_freezer_migrate_task` after moving the task's css_set,
and the exit path drives `cgroup_freezer_frozen_exit` for a task dying
frozen after unlinking it.  Those callers are outside the provided
freezer source; their calling conventions below are modelled from the
spec (its per-process state machine and migration/exit contracts). -/

/-- Modelled from the spec: a migration moves the task to the
destination group (the tree collaborator's membership edit) and then the
freezer hook rebalances the counters. -/
def migrateStep (H : Hier) (s : State) (t src dst : Nat) : State :=
  cgroup_freezer_migrate_task H
    (updTsk s t (fun u => { u with owner := dst })) t src dst

/-- Modelled from the spec: a task dying while frozen is first unlinked
from its group (leaving every task count) and then accounted out by the
frozen-exit hook. -/
def exitStep (H : Hier) (s : State) (t : Nat) : State :=
  cgroup_freezer_frozen_exit H { s with tids := s.tids.erase t } t

/-- One mutating operation of the core.  A task enters the frozen state
only from the signal-handling loop, i.e. with `JOBCTL_TRAP_FREEZE` set;
a task leaves it (or exits) only while frozen; a migration names the
task's current owning group as the source. -/
inductive Step (H : Hier) : State → State → Prop where
  | setFreeze (s : State) (c : Nat) (v : Bool) :
      Step H s (cgroup_freeze H s c v)
  | enter (s : State) (t : Nat) (ht : t ∈ s.tids)
      (htr : (s.tsk t).jobctlTrapFreeze = true) :
      Step H s (cgroup_enter_frozen H s t)
  | leave (s : State) (t : Nat) (al : Bool) (ht : t ∈ s.tids)
      (hf : (s.tsk t).frozen = true) :
      Step H s (cgroup_leave_frozen H s t al)
  | migrate (s : State) (t src dst : Nat) (ht : t ∈ s.tids)
      (ho : (s.tsk t).owner = src) :
      Step H s (migrateStep H s t src dst)
  | exited (s : State) (t : Nat) (ht : t ∈ s.tids)
      (hf : (s.tsk t).frozen = true) :
      Step H s (exitStep H s t)

/-- An initial state: pristine group records, no frozen task, no pending
freeze trap, distinct live tasks, no fired assertion, empty log. -/
def IsInit (s : State) : Prop :=
  (∀ g, s.grp g = {}) ∧
  (∀ t, (s.tsk t).frozen = false ∧ (s.tsk t).jobctlTrapFreeze = false) ∧
  s.tids.Nodup ∧ s.warned = false ∧ s.log = []

/-- States reachable from an initial state by mutating operations. -/
def Reachable (H : Hier) (s : State) : Prop :=
  ∃ s0, IsInit s0 ∧ Relation.ReflTransGen (Step H) s0 s

/-- Well-formedness of the static tree shape: pre-order enumerations are
duplicate-free and enumerate exactly the groups whose ancestor-or-self
chain passes through the root of the walk; ancestor-or-self chains are
duplicate-free; every group is live. -/
structure WF (H : Hier) : Prop where
  nodupPre : ∀ r, (H.descPre r).Nodup
  memPre : ∀ g r, g ∈ H.descPre r ↔ (r = g ∨ r ∈ H.anc g)
  nodupAnc : ∀ g, (g :: H.anc g).Nodup
  alive : ∀ g, H.dead g = false

/-- The tasks of group `g` currently in the frozen state. -/
def frozenTasksOf (s : State) (g : Nat) : List Nat :=
  s.tids.filter (fun t => (s.tsk t).owner == g && (s.tsk t).frozen)

/-- The bookkeeping invariant maintained by every mutating operation:
live tasks are distinct, every group's `nr_frozen_tasks` counts exactly
its frozen tasks, every group's `e_freeze` counts exactly the
ancestors-or-self whose `freezer.freeze` request is set, kernel threads
are never frozen nor freeze-trapped, freeze actions were only ever
issued to non-kernel-threads, and no invariant assertion has fired. -/
def Inv (H : Hier) (s : State) : Prop :=
  s.tids.Nodup ∧
  (∀ g, (s.grp g).nrFrozenTasks = ((frozenTasksOf s g).length : Int)) ∧
  (∀ g, (s.grp g).eFreeze =
    (((g :: H.anc g).filter (fun r => (s.grp r).freeze)).length : Int)) ∧
  (∀ t, (s.tsk t).kthread = true →
    (s.tsk t).frozen = false ∧ (s.tsk t).jobctlTrapFreeze = false) ∧
  (∀ t b, Event.freezeTask t b ∈ s.log → (s.tsk t).kthread = false) ∧
  s.warned = false

/-! ### Concrete instances used by witnesses and counterexamples -/

/-- A two-level tree: group 0 is the root, group 1 its only child. -/
def HierW : Hier where
  groups := [0, 1]
  anc := fun g => if g = 1 then [0] else []
  descPre := fun r => if r = 0 then [0, 1] else [r]
  nrDescendants := fun g => if g = 0 then 1 else 0
  dead := fun _ => false

/-- A forest of isolated single groups. -/
def HierT : Hier where
  groups := [0]
  anc := fun _ => []
  descPre := fun r => [r]
  nrDescendants := fun _ => 0
  dead := fun _ => false

/-- Pristine state over `HierW`: an ordinary task 10 in the root group 0
and an ordinary task 11 in the child group 1. -/
def sA : State where
  grp := fun _ => {}
  leg := fun _ => {}
  tsk := fun t =>
    if t = 10 then { owner := 0 }
    else if t = 11 then { owner := 1 }
    else {}
  tids := [10, 11]

/-- Freeze the root subtree, then task 10 (root's own task) reaches the
frozen state while task 11 (the child's task) is still running. -/
def runC1 : State := cgroup_enter_frozen HierW (cgroup_freeze HierW sA 0 true) 10

/-- Pristine state over `HierT` with a kernel thread 7 and an ordinary
task 10, both in group 0. -/
def sK : State where
  grp := fun _ => {}
  leg := fun _ => {}
  tsk := fun t =>
    if t = 7 then { owner := 0, kthread := true }
    else { owner := 0 }
  tids := [7, 10]

/-- An already-frozen task 5 sitting in (already counted out of) source
group 0 and about to be counted into destination group 1, whose
`CGRP_FREEZE` is set and which is already reported frozen — the
destination's requested state matches the task's frozen state. -/
def sC2 : State where
  grp := fun g =>
    if g = 1 then { cgrpFreeze := true, cgrpFrozen := true }
    else { nrFrozenTasks := 1 }
  leg := fun _ => {}
  tsk := fun t =>
    if t = 5 then { owner := 1, frozen := true, jobctlTrapFreeze := true }
    else {}
  tids := [5]

def runC2 : State := cgroup_freezer_migrate_task HierW sC2 5 0 1

/-- Legacy state: non-root group 1 is online, freezing (self) and
frozen, and its OEM flag records that the last-issued intent was a
freeze; task 5 was just forked into group 1. -/
def sC3 : State where
  grp := fun _ => {}
  leg := fun g =>
    if g = 1 then
      { online := true, freezingSelf := true, frozen := true,
        oemFreezeFlag := 1 }
    else { online := true }
  tsk := fun t => if t = 5 then { owner := 1, uid := 1000 } else {}
  tids := [5]
  systemFreezingCnt := 1

def runC3 : State := unfreezer_fork HierW sC3 5

/-- Group 0 has its freeze request (`CGRP_FREEZE`) still set and counts
its one frozen task 5, which is about to attempt to leave the frozen
state. -/
def sC8 : State where
  grp := fun g =>
    if g = 0 then { cgrpFreeze := true, nrFrozenTasks := 1 } else {}
  leg := fun _ => {}
  tsk := fun t => if t = 5 then { owner := 0, frozen := true } else {}
  tids := [5]

/-- Legacy state for the global freezing counter: group 0 online and not
freezing, group 1 online and freezing (self); the counter is 1. -/
def sC9 : State where
  grp := fun _ => {}
  leg := fun g =>
    if g = 0 then { online := true }
    else if g = 1 then { online := true, freezingSelf := true }
    else {}
  tsk := fun _ => {}
  tids := []
  systemFreezingCnt := 1

/-- Legacy thaw scenario: group 1 owns the credentialled task 5 with
real UID 1000; elsewhere in the system live task 6 with the same UID and
task 7 with a different UID. -/
def sC10 : State where
  grp := fun _ => {}
  leg := fun _ => {}
  tsk := fun t =>
    if t = 5 then { owner := 1, uid := 1000 }
    else if t = 6 then { owner := 2, uid := 1000 }
    else if t = 7 then { owner := 2, uid := 42 }
    else { hasCred := false }
  tids := [5, 6, 7]

/-! ### Preservation bundles

`PPres s s'` records what `cgroup_propagate_frozen` / `cgroup_update_frozen`
leave untouched (they only change `CGRP_FROZEN` bits and
`nr_frozen_descendants` counters and append notifications); `DPres s s'`
records what `cgroup_do_freeze` and the `cgroup_freeze` walk leave
untouched (additionally the `JOBCTL_TRAP_FREEZE` bits of non-kernel-thread
tasks may change and freeze actions on non-kernel-thread tasks may be
logged). -/

structure PPres (s s' : State) : Prop where
  tsk : s'.tsk = s.tsk
  tids : s'.tids = s.tids
  leg : s'.leg = s.leg
  warned : s'.warned = s.warned
  cnt : s'.systemFreezingCnt = s.systemFreezingCnt
  freeze : ∀ g, (s'.grp g).freeze = (s.grp g).freeze
  cgrpFreeze : ∀ g, (s'.grp g).cgrpFreeze = (s.grp g).cgrpFreeze
  eFreeze : ∀ g, (s'.grp g).eFreeze = (s.grp g).eFreeze
  nrFrozenTasks : ∀ g, (s'.grp g).nrFrozenTasks = (s.grp g).nrFrozenTasks
  log : ∃ ns, s'.log = s.log ++ ns ∧ ∀ e ∈ ns, ∃ p, e = Event.notify p

structure DPres (s s' : State) : Prop where
  owner : ∀ t, (s'.tsk t).owner = (s.tsk t).owner
  frozen : ∀ t, (s'.tsk t).frozen = (s.tsk t).frozen
  kthread : ∀ t, (s'.tsk t).kthread = (s.tsk t).kthread
  dying : ∀ t, (s'.tsk t).dying = (s.tsk t).dying
  hasCred : ∀ t, (s'.tsk t).hasCred = (s.tsk t).hasCred
  uid : ∀ t, (s'.tsk t).uid = (s.tsk t).uid
  ktrap : ∀ t, (s.tsk t).kthread = true →
    (s'.tsk t).jobctlTrapFreeze = (s.tsk t).jobctlTrapFreeze
  tids : s'.tids = s.tids
  leg : s'.leg = s.leg
  cnt : s'.systemFreezingCnt = s.systemFreezingCnt
  freeze : ∀ g, (s'.grp g).freeze = (s.grp g).freeze
  nrFrozenTasks : ∀ g, (s'.grp g).nrFrozenTasks = (s.grp g).nrFrozenTasks
  log : ∃ ns, s'.log = s.log ++ ns ∧ ∀ e ∈ ns,
    (∃ p, e = Event.notify p) ∨
    ∃ t b, e = Event.freezeTask t b ∧ (s.tsk t).kthread = false

/-! ### Basic unfolding lemmas -/

@[simp] lemma grp_updGrp (s : State) (i : Nat) (f : GroupState → GroupState)
    (j : Nat) : (updGrp s i f).grp j = if j = i then f (s.grp j) else s.grp j :=
  rfl

@[simp] lemma tsk_updGrp (s : State) (i : Nat) (f : GroupState → GroupState) :
    (updGrp s i f).tsk = s.tsk := rfl

@[simp] lemma tids_updGrp (s : State) (i : Nat) (f : GroupState → GroupState) :
    (updGrp s i f).tids = s.tids := rfl

@[simp] lemma log_updGrp (s : State) (i : Nat) (f : GroupState → GroupState) :
    (updGrp s i f).log = s.log := rfl

@[simp] lemma warned_updGrp (s : State) (i : Nat) (f : GroupState → GroupState) :
    (updGrp s i f).warned = s.warned := rfl

@[simp] lemma leg_updGrp (s : State) (i : Nat) (f : GroupState → GroupState) :
    (updGrp s i f).leg = s.leg := rfl

@[simp] lemma cnt_updGrp (s : State) (i : Nat) (f : GroupState → GroupState) :
    (updGrp s i f).systemFreezingCnt = s.systemFreezingCnt := rfl

@[simp] lemma tsk_updTsk (s : State) (i : Nat) (f : TaskState → TaskState)
    (j : Nat) : (updTsk s i f).tsk j = if j = i then f (s.tsk j) else s.tsk j :=
  rfl

@[simp] lemma grp_updTsk (s : State) (i : Nat) (f : TaskState → TaskState) :
    (updTsk s i f).grp = s.grp := rfl

@[simp] lemma tids_updTsk (s : State) (i : Nat) (f : TaskState → TaskState) :
    (updTsk s i f).tids = s.tids := rfl

@[simp] lemma log_updTsk (s : State) (i : Nat) (f : TaskState → TaskState) :
    (updTsk s i f).log = s.log := rfl

@[simp] lemma warned_updTsk (s : State) (i : Nat) (f : TaskState → TaskState) :
    (updTsk s i f).warned = s.warned := rfl

@[simp] lemma leg_updTsk (s : State) (i : Nat) (f : TaskState → TaskState) :
    (updTsk s i f).leg = s.leg := rfl

@[simp] lemma cnt_updTsk (s : State) (i : Nat) (f : TaskState → TaskState) :
    (updTsk s i f).systemFreezingCnt = s.systemFreezingCnt := rfl

@[simp] lemma leg_updLeg (s : State) (i : Nat) (f : LegacyState → LegacyState)
    (j : Nat) : (updLeg s i f).leg j = if j = i then f (s.leg j) else s.leg j :=
  rfl

@[simp] lemma grp_updLeg (s : State) (i : Nat) (f : LegacyState → LegacyState) :
    (updLeg s i f).grp = s.grp := rfl

@[simp] lemma tsk_updLeg (s : State) (i : Nat) (f : LegacyState → LegacyState) :
    (updLeg s i f).tsk = s.tsk := rfl

@[simp] lemma tids_updLeg (s : State) (i : Nat) (f : LegacyState → LegacyState) :
    (updLeg s i f).tids = s.tids := rfl

@[simp] lemma log_updLeg (s : State) (i : Nat) (f : LegacyState → LegacyState) :
    (updLeg s i f).log = s.log := rfl

@[simp] lemma warned_updLeg (s : State) (i : Nat) (f : LegacyState → LegacyState) :
    (updLeg s i f).warned = s.warned := rfl

@[simp] lemma cnt_updLeg (s : State) (i : Nat) (f : LegacyState → LegacyState) :
    (updLeg s i f).systemFreezingCnt = s.systemFreezingCnt := rfl

@[simp] lemma log_pushLog (s : State) (e : Event) :
    (pushLog s e).log = s.log ++ [e] := rfl

@[simp] lemma grp_pushLog (s : State) (e : Event) : (pushLog s e).grp = s.grp :=
  rfl

@[simp] lemma tsk_pushLog (s : State) (e : Event) : (pushLog s e).tsk = s.tsk :=
  rfl

@[simp] lemma tids_pushLog (s : State) (e : Event) :
    (pushLog s e).tids = s.tids := rfl

@[simp] lemma warned_pushLog (s : State) (e : Event) :
    (pushLog s e).warned = s.warned := rfl

@[simp] lemma leg_pushLog (s : State) (e : Event) : (pushLog s e).leg = s.leg :=
  rfl

@[simp] lemma cnt_pushLog (s : State) (e : Event) :
    (pushLog s e).systemFreezingCnt = s.systemFreezingCnt := rfl

lemma tasksOf_congr {s s' : State} (ht : s'.tids = s.tids)
    (hk : s'.tsk = s.tsk) : tasksOf s' = tasksOf s := by
  funext c
  simp [tasksOf, ht, hk]

lemma countedTasks_congr {s s' : State} (ht : s'.tids = s.tids)
    (hk : s'.tsk = s.tsk) : countedTasks s' = countedTasks s := by
  funext c
  simp [countedTasks, ht, hk]

/-! ### Preservation facts for the upward propagation

`cgroup_propagate_frozen` and `cgroup_update_frozen` only touch the
`CGRP_FROZEN` bits and `nr_frozen_descendants` counters of groups (and
append notifications to the log); everything else is preserved.  `PPres
s s'` bundles these facts. -/

lemma PPres.refl (s : State) : PPres s s :=
  ⟨rfl, rfl, rfl, rfl, rfl, fun _ => rfl, fun _ => rfl, fun _ => rfl,
   fun _ => rfl, ⟨[], by simp, by simp⟩⟩

lemma PPres.trans {s t u : State} (h1 : PPres s t) (h2 : PPres t u) :
    PPres s u := by
  obtain ⟨ns1, hl1, he1⟩ := h1.log
  obtain ⟨ns2, hl2, he2⟩ := h2.log
  refine ⟨h2.tsk.trans h1.tsk, h2.tids.trans h1.tids, h2.leg.trans h1.leg,
    h2.warned.trans h1.warned, h2.cnt.trans h1.cnt,
    fun g => (h2.freeze g).trans (h1.freeze g),
    fun g => (h2.cgrpFreeze g).trans (h1.cgrpFreeze g),
    fun g => (h2.eFreeze g).trans (h1.eFreeze g),
    fun g => (h2.nrFrozenTasks g).trans (h1.nrFrozenTasks g),
    ⟨ns1 ++ ns2, by simp [hl2, hl1], ?_⟩⟩
  intro e he
  rcases List.mem_append.1 he with h | h
  · exact he1 e h
  · exact he2 e h

lemma PPres.updGrpPres (s : State) (p : Nat) (f : GroupState → GroupState)
    (h1 : ∀ g, (f g).freeze = g.freeze) (h2 : ∀ g, (f g).eFreeze = g.eFreeze)
    (h3 : ∀ g, (f g).nrFrozenTasks = g.nrFrozenTasks)
    (h4 : ∀ g, (f g).cgrpFreeze = g.cgrpFreeze) :
    PPres s (updGrp s p f) :=
  ⟨rfl, rfl, rfl, rfl, rfl,
   fun g => by by_cases hg : g = p <;> simp [hg, h1],
   fun g => by by_cases hg : g = p <;> simp [hg, h4],
   fun g => by by_cases hg : g = p <;> simp [hg, h2],
   fun g => by by_cases hg : g = p <;> simp [hg, h3],
   ⟨[], by simp, by simp⟩⟩

lemma PPres.pushNotify (s : State) (p : Nat) :
    PPres s (pushLog s (Event.notify p)) :=
  ⟨rfl, rfl, rfl, rfl, rfl, fun _ => rfl, fun _ => rfl, fun _ => rfl,
   fun _ => rfl, ⟨[Event.notify p], rfl, by simp⟩⟩

lemma propagateStep_ppres (H : Hier) (f : Bool) (p : Nat) (s : State)
    (d : Int) : PPres s (propagateStep H f p s d).1 := by
  cases f <;> simp only [propagateStep, Bool.false_eq_true, if_false, if_true,
    reduceIte] <;> split <;> dsimp only
  · refine ((PPres.updGrpPres _ _ _ ?_ ?_ ?_ ?_).trans
      (PPres.updGrpPres _ _ _ ?_ ?_ ?_ ?_)).trans
      (PPres.pushNotify _ _) <;> exact fun g => rfl
  · refine PPres.updGrpPres _ _ _ ?_ ?_ ?_ ?_ <;> exact fun g => rfl
  · refine ((PPres.updGrpPres _ _ _ ?_ ?_ ?_ ?_).trans
      (PPres.updGrpPres _ _ _ ?_ ?_ ?_ ?_)).trans
      (PPres.pushNotify _ _) <;> exact fun g => rfl
  · refine PPres.updGrpPres _ _ _ ?_ ?_ ?_ ?_ <;> exact fun g => rfl

lemma propagateStep_grp_ne (H : Hier) (f : Bool) (p : Nat) (s : State)
    (d : Int) (g : Nat) (hg : g ≠ p) :
    (propagateStep H f p s d).1.grp g = s.grp g := by
  cases f <;> simp only [propagateStep, Bool.false_eq_true, if_false, if_true,
    reduceIte] <;> split <;> simp [hg]

lemma propagate_ppres (H : Hier) (f : Bool) :
    ∀ (l : List Nat) (s : State) (d : Int),
    PPres s (cgroup_propagate_frozen H s f d l) := by
  intro l
  induction l with
  | nil => intro s d; exact PPres.refl s
  | cons p rest ih =>
    intro s d
    exact (propagateStep_ppres H f p s d).trans
      (ih (propagateStep H f p s d).1 (propagateStep H f p s d).2)

lemma propagate_grp_not_mem (H : Hier) (f : Bool) :
    ∀ (l : List Nat) (s : State) (d : Int) (g : Nat), g ∉ l →
    (cgroup_propagate_frozen H s f d l).grp g = s.grp g := by
  intro l
  induction l with
  | nil => intro s d g _; rfl
  | cons p rest ih =>
    intro s d g hg
    rw [cgroup_propagate_frozen]
    rw [ih _ _ g (fun h => hg (List.mem_cons_of_mem p h))]
    exact propagateStep_grp_ne H f p s d g (fun h => hg (h ▸ List.mem_cons_self p rest))

lemma update_frozen_ppres (H : Hier) (s : State) (c : Nat) :
    PPres s (cgroup_update_frozen H s c) := by
  rw [cgroup_update_frozen]
  split
  · split
    · exact PPres.refl s
    · refine (((PPres.updGrpPres _ _ _ ?_ ?_ ?_ ?_).trans
        (PPres.pushNotify _ _)).trans (propagate_ppres H _ _ _ _)) <;> exact fun g => rfl
  · split
    · exact PPres.refl s
    · refine (((PPres.updGrpPres _ _ _ ?_ ?_ ?_ ?_).trans
        (PPres.pushNotify _ _)).trans (propagate_ppres H _ _ _ _)) <;> exact fun g => rfl

/-- After `cgroup_update_frozen H s c`, provided the ancestor chain of
`c` does not (degenerately) contain `c` itself, the `CGRP_FROZEN` bit of
`c` holds exactly the recomputed value: `CGRP_FREEZE` is set and all
counted tasks are frozen. -/
lemma update_frozen_result (H : Hier) (s : State) (c : Nat)
    (hc : c ∉ H.anc c) :
    ((cgroup_update_frozen H s c).grp c).cgrpFrozen =
      ((s.grp c).cgrpFreeze &&
        (s.grp c).nrFrozenTasks == cgroupTaskCount s c) := by
  rw [cgroup_update_frozen]
  split
  · rename_i hfrozen
    split
    · rename_i halready
      simp [halready, hfrozen]
    · rw [propagate_grp_not_mem H _ _ _ _ c hc]
      simp [hfrozen]
  · rename_i hfrozen
    split
    · rename_i halready
      simp at halready
      simp [halready]
      simpa using hfrozen
    · rw [propagate_grp_not_mem H _ _ _ _ c hc]
      simp
      simpa using hfrozen

/-! ### Preservation facts for the downward walk

`cgroup_do_freeze` (and hence every iteration of the `cgroup_freeze`
walk) only changes `CGRP_FREEZE`/`CGRP_FROZEN` bits,
`nr_frozen_descendants` counters and the `JOBCTL_TRAP_FREEZE` bits of
non-kernel-thread tasks, appending only notifications and freeze
actions on non-kernel-thread tasks to the log. -/

lemma DPres.drefl (s : State) : DPres s s :=
  ⟨fun _ => rfl, fun _ => rfl, fun _ => rfl, fun _ => rfl, fun _ => rfl,
   fun _ => rfl, fun _ _ => rfl, rfl, rfl, rfl, fun _ => rfl, fun _ => rfl,
   ⟨[], by simp, by simp⟩⟩

lemma DPres.dtrans {s t u : State} (h1 : DPres s t) (h2 : DPres t u) :
    DPres s u := by
  obtain ⟨ns1, hl1, he1⟩ := h1.log
  obtain ⟨ns2, hl2, he2⟩ := h2.log
  refine ⟨fun x => (h2.owner x).trans (h1.owner x),
    fun x => (h2.frozen x).trans (h1.frozen x),
    fun x => (h2.kthread x).trans (h1.kthread x),
    fun x => (h2.dying x).trans (h1.dying x),
    fun x => (h2.hasCred x).trans (h1.hasCred x),
    fun x => (h2.uid x).trans (h1.uid x),
    fun x hk => (h2.ktrap x (by rw [h1.kthread x]; exact hk)).trans
      (h1.ktrap x hk),
    h2.tids.trans h1.tids, h2.leg.trans h1.leg, h2.cnt.trans h1.cnt,
    fun g => (h2.freeze g).trans (h1.freeze g),
    fun g => (h2.nrFrozenTasks g).trans (h1.nrFrozenTasks g),
    ⟨ns1 ++ ns2, by simp [hl2, hl1], ?_⟩⟩
  intro e he
  rcases List.mem_append.1 he with h | h
  · exact he1 e h
  · rcases he2 e h with h' | ⟨x, b, hx, hk⟩
    · exact Or.inl h'
    · exact Or.inr ⟨x, b, hx, (h1.kthread x).symm.trans hk⟩

lemma PPres.toDPres {s s' : State} (h : PPres s s') : DPres s s' := by
  obtain ⟨ns, hl, he⟩ := h.log
  exact ⟨fun x => by rw [h.tsk], fun x => by rw [h.tsk], fun x => by rw [h.tsk],
    fun x => by rw [h.tsk], fun x => by rw [h.tsk], fun x => by rw [h.tsk],
    fun x _ => by rw [h.tsk],
    h.tids, h.leg, h.cnt, h.freeze, h.nrFrozenTasks,
    ⟨ns, hl, fun e hee => Or.inl (he e hee)⟩⟩

lemma freeze_task_dpres (s : State) (t : Nat) (v : Bool)
    (hk : (s.tsk t).kthread = false) : DPres s (cgroup_freeze_task s t v) := by
  rw [cgroup_freeze_task]
  split
  · exact DPres.drefl s
  · refine ⟨fun x => by by_cases hx : x = t <;> simp [hx],
      fun x => by by_cases hx : x = t <;> simp [hx],
      fun x => by by_cases hx : x = t <;> simp [hx],
      fun x => by by_cases hx : x = t <;> simp [hx],
      fun x => by by_cases hx : x = t <;> simp [hx],
      fun x => by by_cases hx : x = t <;> simp [hx],
      fun x hkx => by
        by_cases hx : x = t
        · subst hx
          rw [hk] at hkx
          exact absurd hkx (by simp)
        · simp [hx],
      by simp, by simp, by simp, fun g => by simp, fun g => by simp,
      ⟨[Event.freezeTask t v], by simp, ?_⟩⟩
    intro e he
    simp at he
    exact Or.inr ⟨t, v, he, hk⟩

lemma freeze_fold_dpres (v : Bool) :
    ∀ (l : List Nat) (s : State),
    DPres s (l.foldl (fun acc t =>
      if (acc.tsk t).kthread then acc else cgroup_freeze_task acc t v) s) := by
  intro l
  induction l with
  | nil => intro s; exact DPres.drefl s
  | cons t rest ih =>
    intro s
    rw [List.foldl_cons]
    by_cases hk : (s.tsk t).kthread
    · simpa [hk] using ih s
    · have h1 : DPres s (cgroup_freeze_task s t v) :=
        freeze_task_dpres s t v (by simpa using hk)
      simpa [hk] using h1.dtrans (ih (cgroup_freeze_task s t v))

lemma do_freeze_dpres (H : Hier) (s : State) (c : Nat) (v : Bool) :
    DPres s (cgroup_do_freeze H s c v) := by
  rw [cgroup_do_freeze]
  have h0 : DPres s (updGrp s c fun g => { g with cgrpFreeze := v }) :=
    ⟨fun x => rfl, fun x => rfl, fun x => rfl, fun x => rfl, fun x => rfl,
     fun x => rfl, fun x _ => rfl, rfl, rfl, rfl,
     fun g => by by_cases hg : g = c <;> simp [hg],
     fun g => by by_cases hg : g = c <;> simp [hg],
     ⟨[], by simp, by simp⟩⟩
  have h1 := h0.dtrans (freeze_fold_dpres v
    (tasksOf (updGrp s c fun g => { g with cgrpFreeze := v }) c)
    (updGrp s c fun g => { g with cgrpFreeze := v }))
  split
  · exact h1.dtrans (update_frozen_ppres H _ c).toDPres
  · exact h1

lemma do_freeze_warned (H : Hier) (s : State) (c : Nat) (v : Bool) :
    (cgroup_do_freeze H s c v).warned = s.warned := by
  rw [cgroup_do_freeze]
  have h1 : ∀ (l : List Nat) (s' : State),
      (l.foldl (fun acc t =>
        if (acc.tsk t).kthread then acc else cgroup_freeze_task acc t v) s').warned
        = s'.warned := by
    intro l
    induction l with
    | nil => intro s'; rfl
    | cons t rest ih =>
      intro s'
      rw [List.foldl_cons]
      by_cases hk : (s'.tsk t).kthread
      · simp [hk, ih]
      · simp only [hk, if_false, Bool.false_eq_true, reduceIte]
        rw [ih]
        rw [cgroup_freeze_task]
        split <;> simp
  split
  · rw [(update_frozen_ppres H _ c).warned, h1]
    rfl
  · rw [h1]
    rfl

lemma do_freeze_eFreeze (H : Hier) (s : State) (c : Nat) (v : Bool) (g : Nat) :
    ((cgroup_do_freeze H s c v).grp g).eFreeze = (s.grp g).eFreeze := by
  rw [cgroup_do_freeze]
  have h1 : ∀ (l : List Nat) (s' : State),
      ((l.foldl (fun acc t =>
        if (acc.tsk t).kthread then acc else cgroup_freeze_task acc t v) s').grp g).eFreeze
        = ((s'.grp g)).eFreeze := by
    intro l
    induction l with
    | nil => intro s'; rfl
    | cons t rest ih =>
      intro s'
      rw [List.foldl_cons]
      by_cases hk : (s'.tsk t).kthread
      · simp [hk, ih]
      · simp only [hk, if_false, Bool.false_eq_true, reduceIte]
        rw [ih]
        rw [cgroup_freeze_task]
        split <;> simp
  split
  · rw [(update_frozen_ppres H _ c).eFreeze, h1]
    by_cases hg : g = c <;> simp [hg]
  · rw [h1]
    by_cases hg : g = c <;> simp [hg]

lemma walkStep_dpres (H : Hier) (s : State) (v : Bool) (d : Nat) :
    DPres s (freezeWalkStep H s v d).1 := by
  have hupd : ∀ (f : Int → Int),
      DPres s (updGrp s d fun g => { g with eFreeze := f g.eFreeze }) :=
    fun f => ⟨fun x => rfl, fun x => rfl, fun x => rfl, fun x => rfl,
      fun x => rfl, fun x => rfl, fun x _ => rfl, rfl, rfl, rfl,
      fun g => by by_cases hg : g = d <;> simp [hg],
      fun g => by by_cases hg : g = d <;> simp [hg],
      ⟨[], by simp, by simp⟩⟩
  have hwarn : ∀ s' : State, DPres s' { s' with warned := true } :=
    fun s' => ⟨fun x => rfl, fun x => rfl, fun x => rfl, fun x => rfl,
      fun x => rfl, fun x => rfl, fun x _ => rfl, rfl, rfl, rfl, fun g => rfl,
      fun g => rfl, ⟨[], by simp, by simp⟩⟩
  rw [freezeWalkStep]
  dsimp only
  split
  · exact DPres.drefl s
  · split
    · split
      · exact hupd (fun e => e + 1)
      · exact (hupd (fun e => e + 1)).dtrans (do_freeze_dpres H _ d _)
    · split
      · exact hupd (fun e => e - 1)
      · split
        · exact ((hupd (fun e => e - 1)).dtrans (hwarn _)).dtrans
            (do_freeze_dpres H _ d _)
        · exact (hupd (fun e => e - 1)).dtrans (do_freeze_dpres H _ d _)

lemma walkStep_eFreeze_ne (H : Hier) (s : State) (v : Bool) (d g : Nat)
    (hg : g ≠ d) :
    ((freezeWalkStep H s v d).1.grp g).eFreeze = (s.grp g).eFreeze := by
  rw [freezeWalkStep]
  dsimp only
  split
  · rfl
  · split
    · split
      · simp [hg]
      · rw [do_freeze_eFreeze]
        simp [hg]
    · split
      · simp [hg]
      · split
        · rw [do_freeze_eFreeze]
          simp [hg]
        · rw [do_freeze_eFreeze]
          simp [hg]

lemma walkStep_eFreeze_self (H : Hier) (s : State) (v : Bool) (d : Nat)
    (hd : H.dead d = false) :
    ((freezeWalkStep H s v d).1.grp d).eFreeze =
      (s.grp d).eFreeze + (if v then 1 else -1) := by
  rw [freezeWalkStep]
  dsimp only
  rw [if_neg (by simp [hd])]
  split
  · rename_i hv
    simp only [hv, if_true]
    split
    · simp
    · rw [do_freeze_eFreeze]
      simp
  · rename_i hv
    simp only [hv, if_false, Bool.false_eq_true, reduceIte]
    split
    · simp
      ring
    · split
      · rw [do_freeze_eFreeze]
        simp
        ring
      · rw [do_freeze_eFreeze]
        simp
        ring

lemma walkStep_warned (H : Hier) (s : State) (v : Bool) (d : Nat)
    (hnn : v = false → H.dead d = false → 1 ≤ (s.grp d).eFreeze) :
    (freezeWalkStep H s v d).1.warned = s.warned := by
  rw [freezeWalkStep]
  dsimp only
  split
  · rfl
  · rename_i hdead
    replace hdead : H.dead d = false := by simpa using hdead
    split
    · split
      · simp
      · rw [do_freeze_warned]
        simp
    · rename_i hv
      replace hv : v = false := by simpa using hv
      have h1 : 1 ≤ (s.grp d).eFreeze := hnn hv hdead
      split
      · simp
      · split
        · rename_i hneg
          simp at hneg
          omega
        · rw [do_freeze_warned]
          simp

lemma walkStep_applied (H : Hier) (s : State) (v : Bool) (d : Nat)
    (hd : H.dead d = false) :
    ((freezeWalkStep H s v d).2 = true) ↔
      (if v = true then (s.grp d).eFreeze + 1 ≤ 1
       else (s.grp d).eFreeze - 1 ≤ 0) := by
  rw [freezeWalkStep]
  dsimp only
  rw [if_neg (by simp [hd])]
  split
  · rename_i hv
    simp only [hv, if_true]
    split
    · rename_i hgt
      simp at hgt
      simp
      omega
    · rename_i hgt
      simp at hgt
      simp
      omega
  · rename_i hv
    replace hv : v = false := by simpa using hv
    subst hv
    split
    · rename_i hgt
      simp at hgt
      simp
      omega
    · rename_i hgt
      simp at hgt
      split <;> simp <;> omega

lemma walk_dpres (H : Hier) (v : Bool) :
    ∀ (l : List Nat) (s : State), DPres s (cgroup_freeze_walk H s v l).1 := by
  intro l
  induction l with
  | nil => intro s; exact DPres.drefl s
  | cons d rest ih =>
    intro s
    rw [cgroup_freeze_walk]
    exact (walkStep_dpres H s v d).dtrans (ih (freezeWalkStep H s v d).1)

lemma walk_eFreeze_not_mem (H : Hier) (v : Bool) (g : Nat) :
    ∀ (l : List Nat) (s : State), g ∉ l →
    ((cgroup_freeze_walk H s v l).1.grp g).eFreeze = (s.grp g).eFreeze := by
  intro l
  induction l with
  | nil => intro s _; rfl
  | cons d rest ih =>
    intro s hg
    rw [cgroup_freeze_walk]
    rw [ih _ (fun h => hg (List.mem_cons_of_mem d h))]
    exact walkStep_eFreeze_ne H s v d g
      (fun h => hg (h ▸ List.mem_cons_self d rest))

lemma walk_eFreeze_mem (H : Hier) (v : Bool) (g : Nat) :
    ∀ (l : List Nat) (s : State), l.Nodup → g ∈ l → H.dead g = false →
    ((cgroup_freeze_walk H s v l).1.grp g).eFreeze =
      (s.grp g).eFreeze + (if v then 1 else -1) := by
  intro l
  induction l with
  | nil => intro s _ hg; exact absurd hg (List.not_mem_nil g)
  | cons d rest ih =>
    intro s hnd hg hdead
    rw [cgroup_freeze_walk]
    rcases List.mem_cons.1 hg with hh | hh
    · subst hh
      rw [walk_eFreeze_not_mem H v g rest _ (List.Nodup.not_mem hnd)]
      exact walkStep_eFreeze_self H s v g hdead
    · have hne : g ≠ d := by
        rintro rfl
        exact (List.Nodup.not_mem hnd) hh
      rw [ih _ (List.Nodup.of_cons hnd) hh hdead]
      rw [walkStep_eFreeze_ne H s v d g hne]

lemma walk_warned (H : Hier) (v : Bool) :
    ∀ (l : List Nat) (s : State), l.Nodup →
    (v = false → ∀ d ∈ l, H.dead d = false → 1 ≤ (s.grp d).eFreeze) →
    (cgroup_freeze_walk H s v l).1.warned = s.warned := by
  intro l
  induction l with
  | nil => intro s _ _; rfl
  | cons d rest ih =>
    intro s hnd hnn
    rw [cgroup_freeze_walk]
    rw [ih _ (List.Nodup.of_cons hnd) ?_]
    · exact walkStep_warned H s v d
        (fun hv hdead => hnn hv d (List.mem_cons_self d rest) hdead)
    · intro hv d' hd' hdead'
      have hne : d' ≠ d := by
        rintro rfl
        exact (List.Nodup.not_mem hnd) hd'
      rw [walkStep_eFreeze_ne H s v d d' hne]
      exact hnn hv d' (List.mem_cons_of_mem d hd') hdead'

lemma walk_proc_subset (H : Hier) (v : Bool) :
    ∀ (l : List Nat) (s : State) (g : Nat),
    g ∈ (cgroup_freeze_walk H s v l).2 → g ∈ l := by
  intro l
  induction l with
  | nil => intro s g hg; exact absurd hg (List.not_mem_nil g)
  | cons d rest ih =>
    intro s g hg
    rw [cgroup_freeze_walk] at hg
    by_cases hap : (freezeWalkStep H s v d).2
    · rw [if_pos hap] at hg
      rcases List.mem_cons.1 hg with hh | hh
      · exact hh ▸ List.mem_cons_self d rest
      · exact List.mem_cons_of_mem d (ih _ g hh)
    · rw [if_neg hap] at hg
      exact List.mem_cons_of_mem d (ih _ g hg)

lemma walk_proc_mem (H : Hier) (v : Bool) :
    ∀ (l : List Nat) (s : State) (g : Nat), l.Nodup → g ∈ l →
    H.dead g = false →
    (g ∈ (cgroup_freeze_walk H s v l).2 ↔
      (if v = true then (s.grp g).eFreeze + 1 ≤ 1
       else (s.grp g).eFreeze - 1 ≤ 0)) := by
  intro l
  induction l with
  | nil => intro s g _ hg; exact absurd hg (List.not_mem_nil g)
  | cons d rest ih =>
    intro s g hnd hg hdead
    rw [cgroup_freeze_walk]
    dsimp only
    rcases List.mem_cons.1 hg with hh | hh
    · subst hh
      have hnotrest : g ∉ (cgroup_freeze_walk H (freezeWalkStep H s v g).1 v rest).2 :=
        fun h => (List.Nodup.not_mem hnd) (walk_proc_subset H v rest _ g h)
      have happ := walkStep_applied H s v g hdead
      by_cases hap : (freezeWalkStep H s v g).2 = true
      · rw [if_pos hap]
        exact iff_of_true (List.mem_cons_self g _) (happ.mp hap)
      · rw [if_neg hap]
        exact iff_of_false hnotrest (fun hR => hap (happ.mpr hR))
    · have hne : g ≠ d := by
        rintro rfl
        exact (List.Nodup.not_mem hnd) hh
      have hrec := ih (freezeWalkStep H s v d).1 g
        (List.Nodup.of_cons hnd) hh hdead
      rw [walkStep_eFreeze_ne H s v d g hne] at hrec
      by_cases hap : (freezeWalkStep H s v d).2 = true
      · rw [if_pos hap]
        rw [List.mem_cons]
        simp only [hne, false_or]
        exact hrec
      · rw [if_neg hap]
        exact hrec

/-! ### Counting helpers -/

lemma length_filter_flip (c : Nat) (p q : Nat → Bool)
    (h : ∀ x, x ≠ c → q x = p x) :
    ∀ (l : List Nat), l.Nodup → c ∈ l →
    ((l.filter q).length : Int) =
      (l.filter p).length + (if q c then 1 else 0) - (if p c then 1 else 0) := by
  intro l
  induction l with
  | nil => intro _ hc; exact absurd hc (List.not_mem_nil c)
  | cons a rest ih =>
    intro hnd hc
    rcases List.mem_cons.1 hc with hh | hh
    · subst hh
      have hrest : rest.filter q = rest.filter p :=
        List.filter_congr (fun x hx => h x (fun he => (List.Nodup.not_mem hnd) (he ▸ hx)))
      by_cases hq : q c = true <;> by_cases hp : p c = true <;>
        simp [List.filter_cons, hq, hp, hrest] <;> ring
    · have ha : q a = p a := h a (fun he => (List.Nodup.not_mem hnd) (he ▸ hh))
      have := ih (List.Nodup.of_cons hnd) hh
      by_cases hp : p a = true <;>
        simp [List.filter_cons, hp, ha, this] <;> ring
  
lemma length_filter_congr_of_agree (p q : Nat → Bool) (l : List Nat)
    (h : ∀ x ∈ l, q x = p x) : (l.filter q).length = (l.filter p).length := by
  rw [List.filter_congr h]

lemma length_filter_erase (c : Nat) (p : Nat → Bool) :
    ∀ (l : List Nat), l.Nodup → c ∈ l →
    (((l.erase c).filter p).length : Int) =
      (l.filter p).length - (if p c then 1 else 0) := by
  intro l
  induction l with
  | nil => intro _ hc; exact absurd hc (List.not_mem_nil c)
  | cons a rest ih =>
    intro hnd hc
    rcases List.mem_cons.1 hc with hh | hh
    · subst hh
      rw [List.erase_cons_head]
      by_cases hp : p c = true <;> simp [List.filter_cons, hp]
    · have hne : a ≠ c := fun he => (List.Nodup.not_mem hnd) (he ▸ hh)
      rw [List.erase_cons_tail (by simpa using hne)]
      have := ih (List.Nodup.of_cons hnd) hh
      by_cases hp : p a = true <;>
        simp [List.filter_cons, hp, this] <;> ring

/-! ### Invariant preservation -/

lemma frozenTasksOf_congr {s s' : State} (ht : s'.tids = s.tids)
    (hk : s'.tsk = s.tsk) : frozenTasksOf s' = frozenTasksOf s := by
  funext g
  simp [frozenTasksOf, ht, hk]

lemma Inv.of_ppres (H : Hier) {s s' : State} (hp : PPres s s')
    (hi : Inv H s) : Inv H s' := by
  obtain ⟨h1, h2, h3, h4, h5, h6⟩ := hi
  obtain ⟨ns, hlog, hns⟩ := hp.log
  refine ⟨hp.tids ▸ h1, ?_, ?_, ?_, ?_, hp.warned ▸ h6⟩
  · intro g
    rw [hp.nrFrozenTasks g, frozenTasksOf_congr hp.tids hp.tsk]
    exact h2 g
  · intro g
    rw [hp.eFreeze g, h3 g]
    congr 1
    exact (length_filter_congr_of_agree _ _ _
      (fun x _ => by rw [hp.freeze x])).symm
  · intro t
    rw [hp.tsk]
    exact h4 t
  · intro t b hb
    rw [hlog] at hb
    rcases List.mem_append.1 hb with hb' | hb'
    · rw [hp.tsk]
      exact h5 t b hb'
    · obtain ⟨p, hP⟩ := hns _ hb'
      exact absurd hP (by simp)

lemma length_frozenTasksOf_set_frozen (s : State) (t : Nat) (v : Bool)
    (h1 : s.tids.Nodup) (ht : t ∈ s.tids) (g : Nat) :
    ((frozenTasksOf (updTsk s t fun u => { u with frozen := v }) g).length : Int) =
      (frozenTasksOf s g).length +
        (if ((s.tsk t).owner == g && v) then 1 else 0) -
        (if ((s.tsk t).owner == g && (s.tsk t).frozen) then 1 else 0) := by
  have hflip := length_filter_flip t
    (fun x => (s.tsk x).owner == g && (s.tsk x).frozen)
    (fun x => ((updTsk s t fun u => { u with frozen := v }).tsk x).owner == g &&
      ((updTsk s t fun u => { u with frozen := v }).tsk x).frozen)
    (fun x hx => by simp [updTsk, hx]) s.tids h1 ht
  simp only [frozenTasksOf]
  rw [show (updTsk s t fun u => { u with frozen := v }).tids = s.tids from rfl]
  rw [hflip]
  simp [updTsk, frozenTasksOf]

lemma length_frozenTasksOf_set_owner (s : State) (t dst : Nat)
    (h1 : s.tids.Nodup) (ht : t ∈ s.tids) (g : Nat) :
    ((frozenTasksOf (updTsk s t fun u => { u with owner := dst }) g).length : Int) =
      (frozenTasksOf s g).length +
        (if (dst == g && (s.tsk t).frozen) then 1 else 0) -
        (if ((s.tsk t).owner == g && (s.tsk t).frozen) then 1 else 0) := by
  have hflip := length_filter_flip t
    (fun x => (s.tsk x).owner == g && (s.tsk x).frozen)
    (fun x => ((updTsk s t fun u => { u with owner := dst }).tsk x).owner == g &&
      ((updTsk s t fun u => { u with owner := dst }).tsk x).frozen)
    (fun x hx => by simp [updTsk, hx]) s.tids h1 ht
  simp only [frozenTasksOf]
  rw [show (updTsk s t fun u => { u with owner := dst }).tids = s.tids from rfl]
  rw [hflip]
  simp [updTsk, frozenTasksOf]

lemma frozenTasksOf_set_jobctl (s : State) (t : Nat) (b : Bool) :
    frozenTasksOf (updTsk s t fun u => { u with jobctlTrapFreeze := b }) =
      frozenTasksOf s := by
  funext g
  simp only [frozenTasksOf]
  rw [show (updTsk s t fun u => { u with jobctlTrapFreeze := b }).tids = s.tids from rfl]
  refine List.filter_congr ?_
  intro x _
  by_cases hx : x = t <;> simp [updTsk, hx]

lemma length_frozenTasksOf_erase (s : State) (t : Nat)
    (h1 : s.tids.Nodup) (ht : t ∈ s.tids) (g : Nat) :
    ((frozenTasksOf { s with tids := s.tids.erase t } g).length : Int) =
      (frozenTasksOf s g).length -
        (if ((s.tsk t).owner == g && (s.tsk t).frozen) then 1 else 0) := by
  simp only [frozenTasksOf]
  exact length_filter_erase t _ s.tids h1 ht

lemma inv_enter (H : Hier) (s : State) (t : Nat) (hi : Inv H s)
    (ht : t ∈ s.tids) (htr : (s.tsk t).jobctlTrapFreeze = true) :
    Inv H (cgroup_enter_frozen H s t) := by
  obtain ⟨h1, h2, h3, h4, h5, h6⟩ := hi
  have hkt : (s.tsk t).kthread = false := by
    by_cases hk : (s.tsk t).kthread = true
    · exact absurd htr (by simp [(h4 t hk).2])
    · simpa using hk
  rw [cgroup_enter_frozen]
  split
  · exact ⟨h1, h2, h3, h4, h5, h6⟩
  · rename_i hfz
    replace hfz : (s.tsk t).frozen = false := by simpa using hfz
    refine Inv.of_ppres H (update_frozen_ppres H _ _) ?_
    refine ⟨h1, ?_, ?_, ?_, ?_, h6⟩
    · intro g
      have hlen := length_frozenTasksOf_set_frozen s t true h1 ht g
      have hsame : frozenTasksOf (cgroup_inc_frozen_cnt
          (updTsk s t fun u => { u with frozen := true })
          ((updTsk s t fun u => { u with frozen := true }).tsk t).owner) g =
          frozenTasksOf (updTsk s t fun u => { u with frozen := true }) g := rfl
      rw [hsame, hlen]
      simp only [cgroup_inc_frozen_cnt, updGrp]
      by_cases hg : g = ((updTsk s t fun u => { u with frozen := true }).tsk t).owner
      · have hg' : (s.tsk t).owner = g := by
          rw [hg]; simp [updTsk]
        simp only [if_pos hg]
        simp [hg', hfz, h2 g]
      · have hg' : ¬ ((s.tsk t).owner = g) := by
          intro hcon
          exact hg (by simp [updTsk, hcon])
        simp only [if_neg hg]
        simp [hg', hfz, h2 g]
    · intro g
      have h0 : ∀ r, ((cgroup_inc_frozen_cnt
          (updTsk s t fun u => { u with frozen := true })
          ((updTsk s t fun u => { u with frozen := true }).tsk t).owner).grp r).freeze
          = (s.grp r).freeze := by
        intro r
        by_cases hr : r = (s.tsk t).owner <;>
          simp [cgroup_inc_frozen_cnt, updGrp, updTsk, hr]
      have heq : ((cgroup_inc_frozen_cnt
          (updTsk s t fun u => { u with frozen := true })
          ((updTsk s t fun u => { u with frozen := true }).tsk t).owner).grp g).eFreeze
          = (s.grp g).eFreeze := by
        by_cases hg : g = (s.tsk t).owner <;>
          simp [cgroup_inc_frozen_cnt, updGrp, updTsk, hg]
      rw [heq, h3 g]
      congr 1
      exact (congrArg List.length (List.filter_congr (fun r _ => h0 r))).symm
    · intro x hx
      have hx' : (s.tsk x).kthread = true := by
        by_cases hxt : x = t
        · subst hxt
          simpa [cgroup_inc_frozen_cnt, updGrp, updTsk] using hx
        · simpa [cgroup_inc_frozen_cnt, updGrp, updTsk, hxt] using hx
      have hxt : x ≠ t := by
        rintro rfl
        exact absurd hx' (by simp [hkt])
      simp only [cgroup_inc_frozen_cnt, updGrp, updTsk, if_neg hxt]
      exact h4 x hx'
    · intro x b hb
      have hb' : Event.freezeTask x b ∈ s.log := hb
      by_cases hxt : x = t
      · subst hxt
        simpa [cgroup_inc_frozen_cnt, updGrp, updTsk] using hkt
      · simpa [cgroup_inc_frozen_cnt, updGrp, updTsk, hxt] using h5 x b hb'

lemma Inv.pushNotifyInv (H : Hier) {s : State} (hi : Inv H s) (c : Nat) :
    Inv H (pushLog s (Event.notify c)) := by
  obtain ⟨h1, h2, h3, h4, h5, h6⟩ := hi
  refine ⟨h1, h2, h3, h4, ?_, h6⟩
  intro x b hb
  rw [log_pushLog] at hb
  rcases List.mem_append.1 hb with hb | hb
  · exact h5 x b hb
  · simp at hb

lemma leave_frozen_eq (H : Hier) (s : State) (t : Nat) (al : Bool)
    (h1 : s.tids.Nodup)
    (h2 : ∀ g, (s.grp g).nrFrozenTasks = ((frozenTasksOf s g).length : Int))
    (ht : t ∈ s.tids) (hf : (s.tsk t).frozen = true)
    (hbr : (al || !(s.grp ((s.tsk t).owner)).cgrpFreeze) = true) :
    cgroup_leave_frozen H s t al =
      updTsk (cgroup_update_frozen H
        (updGrp s ((s.tsk t).owner)
          (fun g => { g with nrFrozenTasks := g.nrFrozenTasks - 1 }))
        ((s.tsk t).owner)) t (fun u => { u with frozen := false }) := by
  have hcount : 1 ≤ (s.grp ((s.tsk t).owner)).nrFrozenTasks := by
    rw [h2]
    have htf : t ∈ frozenTasksOf s ((s.tsk t).owner) := by
      simp [frozenTasksOf, ht, hf]
    have := List.length_pos.2 (List.ne_nil_of_mem htf)
    omega
  have hside : ¬(((updGrp s ((s.tsk t).owner)
      (fun g => { g with nrFrozenTasks := g.nrFrozenTasks - 1 })).grp
      ((s.tsk t).owner)).nrFrozenTasks < 0) := by
    rw [grp_updGrp, if_pos rfl]
    dsimp only
    omega
  have hdec : cgroup_dec_frozen_cnt s ((s.tsk t).owner) =
      updGrp s ((s.tsk t).owner)
        (fun g => { g with nrFrozenTasks := g.nrFrozenTasks - 1 }) := by
    rw [cgroup_dec_frozen_cnt]
    rw [if_neg hside]
  have hpp := update_frozen_ppres H (cgroup_dec_frozen_cnt s ((s.tsk t).owner))
    ((s.tsk t).owner)
  have hsafrozen : ((cgroup_update_frozen H
      (cgroup_dec_frozen_cnt s ((s.tsk t).owner)) ((s.tsk t).owner)).tsk t).frozen
      = true := by
    rw [hpp.tsk, hdec]
    simpa using hf
  rw [cgroup_leave_frozen]
  dsimp only
  rw [if_pos hbr]
  rw [if_neg (show ¬((!((cgroup_update_frozen H
      (cgroup_dec_frozen_cnt s ((s.tsk t).owner)) ((s.tsk t).owner)).tsk t).frozen)
      = true) by rw [hsafrozen]; simp)]
  rw [if_neg (show ¬(((updTsk (cgroup_update_frozen H
      (cgroup_dec_frozen_cnt s ((s.tsk t).owner)) ((s.tsk t).owner)) t
      (fun u => { u with frozen := false })).tsk t).frozen = true) by simp [updTsk])]
  rw [hdec]

lemma leave_frozen_eq_race (H : Hier) (s : State) (t : Nat) (al : Bool)
    (hf : (s.tsk t).frozen = true)
    (hbr : ¬((al || !(s.grp ((s.tsk t).owner)).cgrpFreeze) = true)) :
    cgroup_leave_frozen H s t al = pushLog s (Event.recalcSigpending t) := by
  rw [cgroup_leave_frozen]
  dsimp only
  rw [if_neg hbr]
  rw [if_pos hf]

lemma inv_leave (H : Hier) (s : State) (t : Nat) (al : Bool) (hi : Inv H s)
    (ht : t ∈ s.tids) (hf : (s.tsk t).frozen = true) :
    Inv H (cgroup_leave_frozen H s t al) := by
  obtain ⟨h1, h2, h3, h4, h5, h6⟩ := hi
  by_cases hbr : (al || !(s.grp ((s.tsk t).owner)).cgrpFreeze) = true
  · rw [leave_frozen_eq H s t al h1 h2 ht hf hbr]
    have hpp := update_frozen_ppres H
      (updGrp s ((s.tsk t).owner)
        (fun g => { g with nrFrozenTasks := g.nrFrozenTasks - 1 }))
      ((s.tsk t).owner)
    have htskU : ∀ x, ((cgroup_update_frozen H
        (updGrp s ((s.tsk t).owner)
          (fun g => { g with nrFrozenTasks := g.nrFrozenTasks - 1 }))
        ((s.tsk t).owner)).tsk x) = s.tsk x := fun x => by rw [hpp.tsk]; rfl
    have htidsU : (cgroup_update_frozen H
        (updGrp s ((s.tsk t).owner)
          (fun g => { g with nrFrozenTasks := g.nrFrozenTasks - 1 }))
        ((s.tsk t).owner)).tids = s.tids := by rw [hpp.tids]; rfl
    obtain ⟨ns, hlog, hns⟩ := hpp.log
    refine ⟨?_, ?_, ?_, ?_, ?_, ?_⟩
    · rw [show (updTsk _ t (fun u => { u with frozen := false })).tids =
        (cgroup_update_frozen H _ _).tids from rfl, htidsU]
      exact h1
    · intro g
      have hcnt : ((updTsk (cgroup_update_frozen H
          (updGrp s ((s.tsk t).owner)
            (fun g => { g with nrFrozenTasks := g.nrFrozenTasks - 1 }))
          ((s.tsk t).owner)) t (fun u => { u with frozen := false })).grp g).nrFrozenTasks
          = (s.grp g).nrFrozenTasks - (if g = (s.tsk t).owner then 1 else 0) := by
        rw [show ((updTsk (cgroup_update_frozen H _ _) t
            (fun u => { u with frozen := false })).grp g) =
            ((cgroup_update_frozen H
              (updGrp s ((s.tsk t).owner)
                (fun g => { g with nrFrozenTasks := g.nrFrozenTasks - 1 }))
              ((s.tsk t).owner)).grp g) from rfl]
        rw [hpp.nrFrozenTasks g]
        by_cases hg : g = (s.tsk t).owner <;> simp [updGrp, hg]
      rw [hcnt]
      have hcong : frozenTasksOf (cgroup_update_frozen H
          (updGrp s ((s.tsk t).owner)
            (fun g => { g with nrFrozenTasks := g.nrFrozenTasks - 1 }))
          ((s.tsk t).owner)) = frozenTasksOf s :=
        frozenTasksOf_congr htidsU (funext htskU)
      have hlen := length_frozenTasksOf_set_frozen (cgroup_update_frozen H
          (updGrp s ((s.tsk t).owner)
            (fun g => { g with nrFrozenTasks := g.nrFrozenTasks - 1 }))
          ((s.tsk t).owner)) t false (by rw [htidsU]; exact h1)
          (by rw [htidsU]; exact ht) g
      rw [hcong] at hlen
      rw [htskU t] at hlen
      rw [hlen]
      rw [h2 g]
      by_cases hg : g = (s.tsk t).owner
      · subst hg
        simp [hf]
      · have : ¬((s.tsk t).owner == g) := by
          simpa using fun hcon => hg hcon.symm
        simp [this, hg]
    · intro g
      have heF : ((updTsk (cgroup_update_frozen H
          (updGrp s ((s.tsk t).owner)
            (fun g => { g with nrFrozenTasks := g.nrFrozenTasks - 1 }))
          ((s.tsk t).owner)) t (fun u => { u with frozen := false })).grp g).eFreeze
          = (s.grp g).eFreeze := by
        rw [show ((updTsk (cgroup_update_frozen H _ _) t
            (fun u => { u with frozen := false })).grp g) =
            ((cgroup_update_frozen H
              (updGrp s ((s.tsk t).owner)
                (fun g => { g with nrFrozenTasks := g.nrFrozenTasks - 1 }))
              ((s.tsk t).owner)).grp g) from rfl]
        rw [hpp.eFreeze g]
        by_cases hg : g = (s.tsk t).owner <;> simp [updGrp, hg]
      have hfr : ∀ r, ((updTsk (cgroup_update_frozen H
          (updGrp s ((s.tsk t).owner)
            (fun g => { g with nrFrozenTasks := g.nrFrozenTasks - 1 }))
          ((s.tsk t).owner)) t (fun u => { u with frozen := false })).grp r).freeze
          = (s.grp r).freeze := by
        intro r
        rw [show ((updTsk (cgroup_update_frozen H _ _) t
            (fun u => { u with frozen := false })).grp r) =
            ((cgroup_update_frozen H
              (updGrp s ((s.tsk t).owner)
                (fun g => { g with nrFrozenTasks := g.nrFrozenTasks - 1 }))
              ((s.tsk t).owner)).grp r) from rfl]
        rw [hpp.freeze r]
        by_cases hr : r = (s.tsk t).owner <;> simp [updGrp, hr]
      rw [heF, h3 g]
      congr 1
      exact (congrArg List.length (List.filter_congr (fun r _ => hfr r))).symm
    · intro x hx
      have hx' : (s.tsk x).kthread = true := by
        by_cases hxt : x = t
        · subst hxt
          simpa [updTsk, htskU] using hx
        · simpa [updTsk, hxt, htskU] using hx
      by_cases hxt : x = t
      · subst hxt
        refine ⟨by simp [updTsk], ?_⟩
        simpa [updTsk, htskU] using (h4 x hx').2
      · constructor
        · simpa [updTsk, hxt, htskU] using (h4 x hx').1
        · simpa [updTsk, hxt, htskU] using (h4 x hx').2
    · intro x b hb
      have hb' : Event.freezeTask x b ∈ s.log := by
        have : (updTsk (cgroup_update_frozen H
            (updGrp s ((s.tsk t).owner)
              (fun g => { g with nrFrozenTasks := g.nrFrozenTasks - 1 }))
            ((s.tsk t).owner)) t (fun u => { u with frozen := false })).log =
            s.log ++ ns := by
          rw [show (updTsk (cgroup_update_frozen H _ _) t
              (fun u => { u with frozen := false })).log =
              (cgroup_update_frozen H
                (updGrp s ((s.tsk t).owner)
                  (fun g => { g with nrFrozenTasks := g.nrFrozenTasks - 1 }))
                ((s.tsk t).owner)).log from rfl]
          rw [hlog]
          rfl
        rw [this] at hb
        rcases List.mem_append.1 hb with hb | hb
        · exact hb
        · obtain ⟨p, hp⟩ := hns _ hb
          exact absurd hp (by simp)
      have hk := h5 x b hb'
      by_cases hxt : x = t
      · subst hxt
        simpa [updTsk, htskU] using hk
      · simpa [updTsk, hxt, htskU] using hk
    · rw [show (updTsk (cgroup_update_frozen H _ _) t
          (fun u => { u with frozen := false })).warned =
          (cgroup_update_frozen H
            (updGrp s ((s.tsk t).owner)
              (fun g => { g with nrFrozenTasks := g.nrFrozenTasks - 1 }))
            ((s.tsk t).owner)).warned from rfl]
      rw [hpp.warned]
      simpa [updGrp] using h6
  · rw [leave_frozen_eq_race H s t al hf hbr]
    refine ⟨h1, h2, h3, h4, ?_, h6⟩
    intro x b hb
    rw [log_pushLog] at hb
    rcases List.mem_append.1 hb with hb | hb
    · exact h5 x b hb
    · simp at hb

lemma inv_exit (H : Hier) (s : State) (t : Nat) (hi : Inv H s)
    (ht : t ∈ s.tids) (hf : (s.tsk t).frozen = true) :
    Inv H (exitStep H s t) := by
  obtain ⟨h1, h2, h3, h4, h5, h6⟩ := hi
  have hcount : 1 ≤ (s.grp ((s.tsk t).owner)).nrFrozenTasks := by
    rw [h2]
    have htf : t ∈ frozenTasksOf s ((s.tsk t).owner) := by
      simp [frozenTasksOf, ht, hf]
    have := List.length_pos.2 (List.ne_nil_of_mem htf)
    omega
  rw [exitStep, cgroup_freezer_frozen_exit]
  have hside : ¬(((updGrp { s with tids := s.tids.erase t }
      ((({ s with tids := s.tids.erase t } : State).tsk t).owner)
      (fun g => { g with nrFrozenTasks := g.nrFrozenTasks - 1 })).grp
      ((({ s with tids := s.tids.erase t } : State).tsk t).owner)).nrFrozenTasks < 0) := by
    rw [grp_updGrp, if_pos rfl]
    dsimp only
    omega
  have hdec : cgroup_dec_frozen_cnt { s with tids := s.tids.erase t }
      ((({ s with tids := s.tids.erase t } : State).tsk t).owner) =
      updGrp { s with tids := s.tids.erase t } ((s.tsk t).owner)
        (fun g => { g with nrFrozenTasks := g.nrFrozenTasks - 1 }) := by
    rw [cgroup_dec_frozen_cnt]
    rw [if_neg hside]
  rw [hdec]
  refine Inv.of_ppres H (update_frozen_ppres H _ _) ?_
  refine ⟨?_, ?_, ?_, ?_, ?_, ?_⟩
  · exact List.Nodup.erase t h1
  · intro g
    have hlen := length_frozenTasksOf_erase s t h1 ht g
    have hsame : frozenTasksOf (updGrp { s with tids := s.tids.erase t }
        ((s.tsk t).owner)
        (fun g => { g with nrFrozenTasks := g.nrFrozenTasks - 1 })) g =
        frozenTasksOf { s with tids := s.tids.erase t } g := rfl
    rw [hsame, hlen]
    rw [show ((updGrp { s with tids := s.tids.erase t } ((s.tsk t).owner)
        (fun g => { g with nrFrozenTasks := g.nrFrozenTasks - 1 })).grp g) =
        (if g = (s.tsk t).owner then
          { s.grp g with nrFrozenTasks := (s.grp g).nrFrozenTasks - 1 }
         else s.grp g) from rfl]
    by_cases hg : g = (s.tsk t).owner
    · subst hg
      simp [hf, h2]
    · have : ¬((s.tsk t).owner == g) := by
        simpa using fun hcon => hg hcon.symm
      simp [this, hg, h2]
  · intro g
    have heF : ((updGrp { s with tids := s.tids.erase t } ((s.tsk t).owner)
        (fun g => { g with nrFrozenTasks := g.nrFrozenTasks - 1 })).grp g).eFreeze
        = (s.grp g).eFreeze := by
      by_cases hg : g = (s.tsk t).owner <;> simp [updGrp, hg]
    have hfr : ∀ r, ((updGrp { s with tids := s.tids.erase t } ((s.tsk t).owner)
        (fun g => { g with nrFrozenTasks := g.nrFrozenTasks - 1 })).grp r).freeze
        = (s.grp r).freeze := by
      intro r
      by_cases hr : r = (s.tsk t).owner <;> simp [updGrp, hr]
    rw [heF, h3 g]
    congr 1
    exact (congrArg List.length (List.filter_congr (fun r _ => hfr r))).symm
  · intro x hx
    exact h4 x hx
  · intro x b hb
    exact h5 x b hb
  · exact h6

lemma inv_freeze_task (H : Hier) (s : State) (t : Nat) (v : Bool)
    (hi : Inv H s) (hk : (s.tsk t).kthread = false) :
    Inv H (cgroup_freeze_task s t v) := by
  obtain ⟨h1, h2, h3, h4, h5, h6⟩ := hi
  rw [cgroup_freeze_task]
  split
  · exact ⟨h1, h2, h3, h4, h5, h6⟩
  · refine ⟨h1, ?_, ?_, ?_, ?_, h6⟩
    · intro g
      rw [show ((pushLog (updTsk s t fun u => { u with jobctlTrapFreeze := v })
          (Event.freezeTask t v)).grp g) = s.grp g from rfl]
      rw [show frozenTasksOf (pushLog (updTsk s t
          fun u => { u with jobctlTrapFreeze := v })
          (Event.freezeTask t v)) g = frozenTasksOf (updTsk s t
          fun u => { u with jobctlTrapFreeze := v }) g from rfl]
      rw [frozenTasksOf_set_jobctl]
      exact h2 g
    · intro g
      exact h3 g
    · intro x hx
      have hx' : (s.tsk x).kthread = true := by
        by_cases hxt : x = t
        · subst hxt
          simpa [updTsk] using hx
        · simpa [updTsk, hxt] using hx
      have hxt : x ≠ t := by
        rintro rfl
        rw [hk] at hx'
        cases hx'
      simp only [tsk_pushLog, tsk_updTsk, if_neg hxt]
      exact h4 x hx'
    · intro x b hb
      rw [log_pushLog] at hb
      rcases List.mem_append.1 hb with hb | hb
      · have := h5 x b hb
        by_cases hxt : x = t
        · subst hxt
          simpa [updTsk] using this
        · simpa [updTsk, hxt] using this
      · simp at hb
        obtain ⟨hbx, hbb⟩ := hb
        subst hbx
        simpa [updTsk] using hk

lemma eFreeze_updGrp_of_pres (s : State) (i : Nat) (f : GroupState → GroupState)
    (h : ∀ u, (f u).eFreeze = u.eFreeze) (g : Nat) :
    ((updGrp s i f).grp g).eFreeze = (s.grp g).eFreeze := by
  by_cases hg : g = i <;> simp [hg, h]

lemma freeze_updGrp_of_pres (s : State) (i : Nat) (f : GroupState → GroupState)
    (h : ∀ u, (f u).freeze = u.freeze) (g : Nat) :
    ((updGrp s i f).grp g).freeze = (s.grp g).freeze := by
  by_cases hg : g = i <;> simp [hg, h]

lemma tsk_dec_frozen_cnt (s : State) (c : Nat) :
    (cgroup_dec_frozen_cnt s c).tsk = s.tsk := by
  rw [cgroup_dec_frozen_cnt]
  split <;> rfl

lemma tids_dec_frozen_cnt (s : State) (c : Nat) :
    (cgroup_dec_frozen_cnt s c).tids = s.tids := by
  rw [cgroup_dec_frozen_cnt]
  split <;> rfl

lemma inv_migrate (H : Hier) (s : State) (t src dst : Nat) (hi : Inv H s)
    (ht : t ∈ s.tids) (ho : (s.tsk t).owner = src) :
    Inv H (migrateStep H s t src dst) := by
  obtain ⟨h1, h2, h3, h4, h5, h6⟩ := hi
  have hInv4' : ∀ (s' : State), s'.tsk = (updTsk s t fun u =>
      { u with owner := dst }).tsk →
      (∀ x, (s'.tsk x).kthread = true →
        (s'.tsk x).frozen = false ∧ (s'.tsk x).jobctlTrapFreeze = false) := by
    intro s' hs' x hx
    rw [hs'] at hx ⊢
    have hx' : (s.tsk x).kthread = true := by
      by_cases hxt : x = t
      · subst hxt
        simpa [updTsk] using hx
      · simpa [updTsk, hxt] using hx
    have := h4 x hx'
    by_cases hxt : x = t
    · subst hxt
      exact ⟨by simpa [updTsk] using this.1, by simpa [updTsk] using this.2⟩
    · exact ⟨by simpa [updTsk, hxt] using this.1,
        by simpa [updTsk, hxt] using this.2⟩
  have hInv5' : ∀ (s' : State), s'.tsk = (updTsk s t fun u =>
      { u with owner := dst }).tsk → s'.log = s.log →
      (∀ x b, Event.freezeTask x b ∈ s'.log → (s'.tsk x).kthread = false) := by
    intro s' hs' hslog x b hb
    rw [hslog] at hb
    have := h5 x b hb
    rw [hs']
    by_cases hxt : x = t
    · subst hxt
      simpa [updTsk] using this
    · simpa [updTsk, hxt] using this
  rw [migrateStep, cgroup_freezer_migrate_task]
  split
  · -- kernel thread: only the owner field moved, and it is not frozen
    rename_i hk
    have hk' : (s.tsk t).kthread = true := by simpa [updTsk] using hk
    have hfz : (s.tsk t).frozen = false := (h4 t hk').1
    refine ⟨h1, ?_, ?_, hInv4' _ rfl, hInv5' _ rfl rfl, h6⟩
    · intro g
      have hlen := length_frozenTasksOf_set_owner s t dst h1 ht g
      rw [hfz] at hlen
      simp only [Bool.and_false, if_false] at hlen
      rw [show ((updTsk s t fun u => { u with owner := dst }).grp g) =
          s.grp g from rfl]
      rw [hlen]
      simp [h2 g]
    · intro g
      exact h3 g
  · rename_i hk
    have hk' : (s.tsk t).kthread = false := by
      by_cases h : (s.tsk t).kthread = true
      · exact absurd (show ((updTsk s t fun u =>
          { u with owner := dst }).tsk t).kthread = true by
            simpa [updTsk] using h) hk
      · simpa using h
    have hInv1 : Inv H (if ((updTsk s t fun u =>
        { u with owner := dst }).tsk t).frozen = true then
        cgroup_dec_frozen_cnt (cgroup_inc_frozen_cnt
          (updTsk s t fun u => { u with owner := dst }) dst) src
      else (updTsk s t fun u => { u with owner := dst })) := by
      by_cases hfz : (s.tsk t).frozen = true
      · rw [if_pos (by simpa [updTsk] using hfz)]
        have hcount : 1 ≤ (s.grp src).nrFrozenTasks := by
          rw [h2]
          have htf : t ∈ frozenTasksOf s src := by
            simp [frozenTasksOf, ht, ho, hfz]
          have := List.length_pos.2 (List.ne_nil_of_mem htf)
          omega
        have hval_inc : ∀ g, ((cgroup_inc_frozen_cnt
            (updTsk s t fun u => { u with owner := dst }) dst).grp g).nrFrozenTasks
            = (s.grp g).nrFrozenTasks + (if g = dst then 1 else 0) := by
          intro g
          by_cases hg : g = dst <;>
            simp [cgroup_inc_frozen_cnt, updGrp, hg]
        have hside : ¬(((updGrp (cgroup_inc_frozen_cnt
            (updTsk s t fun u => { u with owner := dst }) dst) src
            (fun g => { g with nrFrozenTasks := g.nrFrozenTasks - 1 })).grp
            src).nrFrozenTasks < 0) := by
          rw [grp_updGrp, if_pos rfl]
          dsimp only
          rw [hval_inc src]
          by_cases hsd : src = dst
          · subst hsd
            simp
            omega
          · simp [hsd]
            omega
        have hdec_eq : cgroup_dec_frozen_cnt (cgroup_inc_frozen_cnt
            (updTsk s t fun u => { u with owner := dst }) dst) src =
            updGrp (cgroup_inc_frozen_cnt
              (updTsk s t fun u => { u with owner := dst }) dst) src
              (fun g => { g with nrFrozenTasks := g.nrFrozenTasks - 1 }) := by
          rw [cgroup_dec_frozen_cnt]
          rw [if_neg hside]
        rw [hdec_eq]
        refine ⟨h1, ?_, ?_, hInv4' _ rfl, hInv5' _ rfl rfl, h6⟩
        · intro g
          have hcnt : ((updGrp (cgroup_inc_frozen_cnt
              (updTsk s t fun u => { u with owner := dst }) dst) src
              (fun g => { g with nrFrozenTasks := g.nrFrozenTasks - 1 })).grp
              g).nrFrozenTasks =
              (s.grp g).nrFrozenTasks + (if g = dst then 1 else 0) -
                (if g = src then 1 else 0) := by
            by_cases hg : g = src
            · subst hg
              rw [grp_updGrp, if_pos rfl]
              dsimp only
              rw [hval_inc]
              by_cases hsd : g = dst <;> simp [hsd] <;> omega
            · rw [grp_updGrp, if_neg hg]
              rw [hval_inc]
              by_cases hgd : g = dst <;> simp [hg, hgd] <;> omega
          rw [hcnt]
          have hsame : frozenTasksOf (updGrp (cgroup_inc_frozen_cnt
              (updTsk s t fun u => { u with owner := dst }) dst) src
              (fun g => { g with nrFrozenTasks := g.nrFrozenTasks - 1 })) g =
              frozenTasksOf (updTsk s t fun u => { u with owner := dst }) g := rfl
          rw [hsame]
          have hlen := length_frozenTasksOf_set_owner s t dst h1 ht g
          rw [ho, hfz] at hlen
          rw [hlen, h2 g]
          by_cases hgd : g = dst <;> by_cases hgs : g = src <;>
            simp [hgd, hgs] <;> omega
        · intro g
          have heF : ((updGrp (cgroup_inc_frozen_cnt
              (updTsk s t fun u => { u with owner := dst }) dst) src
              (fun g => { g with nrFrozenTasks := g.nrFrozenTasks - 1 })).grp
              g).eFreeze = (s.grp g).eFreeze := by
            rw [eFreeze_updGrp_of_pres (cgroup_inc_frozen_cnt
                (updTsk s t fun u => { u with owner := dst }) dst) src
                (fun g => { g with nrFrozenTasks := g.nrFrozenTasks - 1 })
                (fun u => rfl) g,
              cgroup_inc_frozen_cnt,
              eFreeze_updGrp_of_pres
                (updTsk s t fun u => { u with owner := dst }) dst
                (fun g => { g with nrFrozenTasks := g.nrFrozenTasks + 1 })
                (fun u => rfl) g]
            rfl
          have hfr : ∀ r, ((updGrp (cgroup_inc_frozen_cnt
              (updTsk s t fun u => { u with owner := dst }) dst) src
              (fun g => { g with nrFrozenTasks := g.nrFrozenTasks - 1 })).grp
              r).freeze = (s.grp r).freeze := by
            intro r
            rw [freeze_updGrp_of_pres (cgroup_inc_frozen_cnt
                (updTsk s t fun u => { u with owner := dst }) dst) src
                (fun g => { g with nrFrozenTasks := g.nrFrozenTasks - 1 })
                (fun u => rfl) r,
              cgroup_inc_frozen_cnt,
              freeze_updGrp_of_pres
                (updTsk s t fun u => { u with owner := dst }) dst
                (fun g => { g with nrFrozenTasks := g.nrFrozenTasks + 1 })
                (fun u => rfl) r]
            rfl
          rw [heF, h3 g]
          congr 1
          exact (congrArg List.length (List.filter_congr (fun r _ => hfr r))).symm
      · rw [if_neg (by simpa [updTsk] using hfz)]
        replace hfz : (s.tsk t).frozen = false := by simpa using hfz
        refine ⟨h1, ?_, ?_, hInv4' _ rfl, hInv5' _ rfl rfl, h6⟩
        · intro g
          have hlen := length_frozenTasksOf_set_owner s t dst h1 ht g
          rw [hfz] at hlen
          simp only [Bool.and_false, if_false] at hlen
          rw [show ((updTsk s t fun u => { u with owner := dst }).grp g) =
              s.grp g from rfl]
          rw [hlen]
          simp [h2 g]
        · intro g
          exact h3 g
    have hInv3 := Inv.of_ppres H (update_frozen_ppres H _ src)
      (Inv.of_ppres H (update_frozen_ppres H _ dst) hInv1)
    refine inv_freeze_task H _ t _ hInv3 ?_
    rw [(update_frozen_ppres H _ src).tsk, (update_frozen_ppres H _ dst).tsk]
    by_cases hfz : ((updTsk s t fun u =>
        { u with owner := dst }).tsk t).frozen = true
    · rw [if_pos hfz, tsk_dec_frozen_cnt]
      rw [show (cgroup_inc_frozen_cnt (updTsk s t fun u =>
        { u with owner := dst }) dst).tsk = (updTsk s t fun u =>
        { u with owner := dst }).tsk from rfl]
      simpa [updTsk] using hk'
    · rw [if_neg hfz]
      simpa [updTsk] using hk'

lemma inv_set_freeze (H : Hier) (hW : WF H) (s : State) (c : Nat) (v : Bool)
    (hi : Inv H s) : Inv H (cgroup_freeze H s c v) := by
  obtain ⟨h1, h2, h3, h4, h5, h6⟩ := hi
  rw [cgroup_freeze]
  split
  · exact ⟨h1, h2, h3, h4, h5, h6⟩
  · rename_i hne
    replace hne : ¬((s.grp c).freeze = v) := by simpa using hne
    dsimp only
    suffices hInvW : Inv H (cgroup_freeze_walk H
        (updGrp s c fun g => { g with freeze := v }) v (H.descPre c)).1 by
      split
      · exact Inv.pushNotifyInv H hInvW c
      · exact hInvW
    have hdp := walk_dpres H v (H.descPre c)
      (updGrp s c fun g => { g with freeze := v })
    obtain ⟨ns, hlog, hns⟩ := hdp.log
    have hflagW : ∀ r, ((cgroup_freeze_walk H
        (updGrp s c fun g => { g with freeze := v }) v (H.descPre c)).1.grp r).freeze
        = if r = c then v else (s.grp r).freeze := by
      intro r
      rw [hdp.freeze r]
      by_cases hr : r = c <;> simp [hr]
    refine ⟨?_, ?_, ?_, ?_, ?_, ?_⟩
    · rw [hdp.tids]
      exact h1
    · intro g
      rw [hdp.nrFrozenTasks g]
      have hc0 : ((updGrp s c fun g => { g with freeze := v }).grp g).nrFrozenTasks
          = (s.grp g).nrFrozenTasks := by
        by_cases hg : g = c <;> simp [hg]
      rw [hc0, h2 g]
      have hlist : frozenTasksOf (cgroup_freeze_walk H
          (updGrp s c fun g => { g with freeze := v }) v (H.descPre c)).1 g =
          frozenTasksOf s g := by
        simp only [frozenTasksOf]
        rw [hdp.tids]
        refine List.filter_congr ?_
        intro x _
        rw [hdp.owner x, hdp.frozen x]
        rfl
      rw [hlist]
    · intro g
      by_cases hmem : g ∈ H.descPre c
      · have hval := walk_eFreeze_mem H v g (H.descPre c)
          (updGrp s c fun g => { g with freeze := v }) (hW.nodupPre c) hmem
          (hW.alive g)
        have hc0 : ((updGrp s c fun g => { g with freeze := v }).grp g).eFreeze
            = (s.grp g).eFreeze := by
          by_cases hg : g = c <;> simp [hg]
        rw [hval, hc0, h3 g]
        have hmemanc : c ∈ g :: H.anc g := by
          rcases (hW.memPre g c).1 hmem with h | h
          · exact h ▸ List.mem_cons_self c (H.anc c)
          · exact List.mem_cons_of_mem g h
        have hflip := length_filter_flip c
          (fun r => (s.grp r).freeze)
          (fun r => ((cgroup_freeze_walk H
            (updGrp s c fun g => { g with freeze := v }) v (H.descPre c)).1.grp r).freeze)
          (fun x hx => by simp only [hflagW]; rw [if_neg hx])
          (g :: H.anc g) (hW.nodupAnc g) hmemanc
        rw [hflip]
        simp only [hflagW]
        cases v
        · have hflag : (s.grp c).freeze = true := by
            by_cases h : (s.grp c).freeze = true
            · exact h
            · exact absurd (by simpa using h) hne
          simp [hflag]
          omega
        · have hflag : (s.grp c).freeze = false := by
            by_cases h : (s.grp c).freeze = true
            · exact absurd h (by simpa using hne)
            · simpa using h
          simp [hflag]
      · have hval := walk_eFreeze_not_mem H v g (H.descPre c)
          (updGrp s c fun g => { g with freeze := v }) hmem
        have hc0 : ((updGrp s c fun g => { g with freeze := v }).grp g).eFreeze
            = (s.grp g).eFreeze := by
          by_cases hg : g = c
          · subst hg
            exact absurd ((hW.memPre g g).2 (Or.inl rfl)) hmem
          · simp [hg]
        rw [hval, hc0, h3 g]
        congr 1
        refine congrArg List.length (List.filter_congr ?_)
        intro x hx
        have hxc : x ≠ c := by
          rintro rfl
          rcases List.mem_cons.1 hx with h | h
          · exact hmem ((hW.memPre g x).2 (Or.inl h))
          · exact hmem ((hW.memPre g x).2 (Or.inr h))
        simp only [hflagW]
        rw [if_neg hxc]
    · intro x hx
      rw [hdp.kthread x] at hx
      replace hx : (s.tsk x).kthread = true := hx
      refine ⟨?_, ?_⟩
      · rw [hdp.frozen x]
        exact (h4 x hx).1
      · rw [hdp.ktrap x hx]
        exact (h4 x hx).2
    · intro x b hb
      rw [hlog] at hb
      rcases List.mem_append.1 hb with hb | hb
      · rw [hdp.kthread x]
        exact h5 x b hb
      · rcases hns _ hb with ⟨p, hp⟩ | ⟨t', b', he, hkt⟩
        · exact absurd hp (by simp)
        · injection he with hx hb2
          subst hx
          rw [hdp.kthread x]
          exact hkt
    · have hwb : (v = false → ∀ d ∈ H.descPre c, H.dead d = false →
          1 ≤ ((updGrp s c fun g => { g with freeze := v }).grp d).eFreeze) := by
        intro hv d hd hdead
        have hc0 : ((updGrp s c fun g => { g with freeze := v }).grp d).eFreeze
            = (s.grp d).eFreeze := by
          by_cases hg : d = c <;> simp [hg]
        rw [hc0, h3 d]
        have hmemanc : c ∈ d :: H.anc d := by
          rcases (hW.memPre d c).1 hd with h | h
          · exact h ▸ List.mem_cons_self c (H.anc c)
          · exact List.mem_cons_of_mem d h
        have hflag : (s.grp c).freeze = true := by
          subst hv
          by_cases h : (s.grp c).freeze = true
          · exact h
          · exact absurd (by simpa using h) hne
        have hcf : c ∈ (d :: H.anc d).filter (fun r => (s.grp r).freeze) :=
          List.mem_filter.2 ⟨hmemanc, by simp [hflag]⟩
        have := List.length_pos.2 (List.ne_nil_of_mem hcf)
        omega
      rw [walk_warned H v (H.descPre c) _ (hW.nodupPre c) hwb]
      exact h6

lemma inv_init (H : Hier) (s : State) (h : IsInit s) : Inv H s := by
  obtain ⟨hg, htk, hnd, hw, hl⟩ := h
  refine ⟨hnd, ?_, ?_, ?_, ?_, hw⟩
  · intro g
    have hempty : frozenTasksOf s g = [] := by
      simp only [frozenTasksOf]
      rw [List.filter_eq_nil_iff]
      intro a _
      simp [(htk a).1]
    rw [hg g, hempty]
    rfl
  · intro g
    have hempty : (g :: H.anc g).filter (fun r => (s.grp r).freeze) = [] := by
      rw [List.filter_eq_nil_iff]
      intro a _
      simp [hg a]
    rw [hg g, hempty]
    rfl
  · intro t _
    exact htk t
  · intro x b hb
    rw [hl] at hb
    exact absurd hb (List.not_mem_nil _)

lemma inv_step (H : Hier) (hW : WF H) {s s' : State} (hs : Step H s s')
    (hi : Inv H s) : Inv H s' := by
  cases hs with
  | setFreeze c v => exact inv_set_freeze H hW s c v hi
  | enter t ht htr => exact inv_enter H s t hi ht htr
  | leave t al ht hf => exact inv_leave H s t al hi ht hf
  | migrate t src dst ht ho => exact inv_migrate H s t src dst hi ht ho
  | exited t ht hf => exact inv_exit H s t hi ht hf

lemma inv_reachable (H : Hier) (hW : WF H) {s : State} (hr : Reachable H s) :
    Inv H s := by
  obtain ⟨s0, hinit, hsteps⟩ := hr
  induction hsteps with
  | refl => exact inv_init H s0 hinit
  | tail h1 h2 ih => exact inv_step H hW h2 ih

lemma WF_HierT : WF HierT := by
  refine ⟨?_, ?_, ?_, ?_⟩
  · intro r
    simp [HierT]
  · intro g r
    simp [HierT, eq_comm]
  · intro g
    simp [HierT]
  · intro g
    rfl

lemma WF_HierW : WF HierW := by
  refine ⟨?_, ?_, ?_, ?_⟩
  · intro r
    by_cases hr : r = 0 <;> simp [HierW, hr]
  · intro g r
    by_cases hr0 : r = 0
    · subst hr0
      by_cases hg1 : g = 1 <;> simp [HierW, hg1, eq_comm]
    · by_cases hg1 : g = 1
      · subst hg1
        simp [HierW, hr0, eq_comm]
      · simp [HierW, hr0, hg1, eq_comm]
  · intro g
    by_cases hg : g = 1 <;> simp [HierW, hg]
  · intro g
    rfl

lemma update_frozen_grp_not_mem (H : Hier) (s : State) (c g : Nat)
    (hg : g ≠ c) (hga : g ∉ H.anc c) :
    (cgroup_update_frozen H s c).grp g = s.grp g := by
  rw [cgroup_update_frozen]
  split
  · split
    · rfl
    · rw [propagate_grp_not_mem H _ _ _ _ g hga]
      simp [hg]
  · split
    · rfl
    · rw [propagate_grp_not_mem H _ _ _ _ g hga]
      simp [hg]

lemma grp_freeze_task (s : State) (t : Nat) (v : Bool) :
    (cgroup_freeze_task s t v).grp = s.grp := by
  rw [cgroup_freeze_task]
  split <;> rfl

lemma tsk_freeze_task_frozen (s : State) (t : Nat) (v : Bool) (x : Nat) :
    ((cgroup_freeze_task s t v).tsk x).frozen = (s.tsk x).frozen := by
  rw [cgroup_freeze_task]
  split
  · rfl
  · by_cases hx : x = t <;> simp [updTsk, hx]

/-! ### Claim theorems -/

/-- C1 (counterexample): in the two-group tree with a task in each
group, freezing the root subtree and letting only the root's own task
reach the frozen state ends (after the completed `cgroup_enter_frozen`
operation) with the root reported frozen (`CGRP_FROZEN` set) while its
descendant group is not frozen and the root's frozen-descendant count
(0) differs from its descendant count (1): the claimed biconditional —
in particular "no group is ever reported frozen while one of its
descendant groups is not frozen" — fails on the code. -/
theorem C1_counterexample :
    (runC1.grp 0).cgrpFrozen = true ∧
    (runC1.grp 1).cgrpFrozen = false ∧
    (runC1.grp 0).nrFrozenDescendants = 0 ∧
    (HierW.nrDescendants 0 : Int) = 1 ∧
    (runC1.tsk 10).frozen = true := by
  decide

/-- C1 (amended): what `cgroup_update_frozen` actually establishes for
the group it is called on (when the group's recorded ancestor chain
does not degenerately contain the group itself): afterwards the
aggregate `CGRP_FROZEN` flag is true iff `CGRP_FREEZE` is set and the
frozen-task count equals the (exempt-excluding) own-task count.  The
descendant-completeness conjunct of the original claim is not part of
the recomputed condition, and ancestors flipped by the upward
propagation are not checked against their own task counts. -/
theorem C1_update_frozen_flag (H : Hier) (s : State) (c : Nat)
    (hc : c ∉ H.anc c) :
    ((cgroup_update_frozen H s c).grp c).cgrpFrozen =
      ((s.grp c).cgrpFreeze &&
        (s.grp c).nrFrozenTasks == cgroupTaskCount s c) :=
  update_frozen_result H s c hc

theorem C1_update_frozen_flag_witness :
    ((cgroup_update_frozen HierW sC8 0).grp 0).cgrpFrozen =
      ((sC8.grp 0).cgrpFreeze &&
        (sC8.grp 0).nrFrozenTasks == cgroupTaskCount sC8 0) :=
  C1_update_frozen_flag HierW sC8 0 (by decide)

/-- C4: for every reachable state of the core over a well-formed tree,
an exempt (kernel-thread) task is never frozen, never carries the
`JOBCTL_TRAP_FREEZE` request, is not counted in the own-task denominator
used for freeze completion, and no freeze/thaw action of the v2 core
(`cgroup_freeze_task`) was ever issued to it — neither by the subtree
freeze walk nor by migration. -/
theorem C4_exempt_never_frozen (H : Hier) (s : State) (t : Nat)
    (hW : WF H) (hr : Reachable H s) (hk : (s.tsk t).kthread = true) :
    (s.tsk t).frozen = false ∧
    (s.tsk t).jobctlTrapFreeze = false ∧
    (∀ g, t ∉ countedTasks s g) ∧
    (∀ b, Event.freezeTask t b ∉ s.log) := by
  obtain ⟨h1, h2, h3, h4, h5, h6⟩ := inv_reachable H hW hr
  refine ⟨(h4 t hk).1, (h4 t hk).2, ?_, ?_⟩
  · intro g hmem
    rw [countedTasks, List.mem_filter] at hmem
    rw [hk] at hmem
    simpa using hmem.2
  · intro b hb
    rw [h5 t b hb] at hk
    cases hk

lemma isInit_sK : IsInit sK := by
  refine ⟨fun _ => rfl, ?_, by decide, rfl, rfl⟩
  intro t
  constructor <;> by_cases h : t = 7 <;> simp [sK, h]

theorem C4_exempt_never_frozen_witness :
    ((cgroup_freeze HierT sK 0 true).tsk 7).frozen = false ∧
    ((cgroup_freeze HierT sK 0 true).tsk 7).jobctlTrapFreeze = false ∧
    (∀ g, 7 ∉ countedTasks (cgroup_freeze HierT sK 0 true) g) ∧
    (∀ b, Event.freezeTask 7 b ∉ (cgroup_freeze HierT sK 0 true).log) :=
  C4_exempt_never_frozen HierT (cgroup_freeze HierT sK 0 true) 7 WF_HierT
    ⟨sK, isInit_sK,
      Relation.ReflTransGen.single (Step.setFreeze sK 0 true)⟩
    (by decide)

/-- C5: during the pre-order walk of `cgroup_freeze` over distinct live
groups, every visited live group has its nested freeze depth `e_freeze`
adjusted by exactly one (incremented when asserting, decremented when
withdrawing), and the per-task freeze/thaw actions plus counter updates
(`cgroup_do_freeze`) are performed for that group iff the resulting
depth equals 1 (asserting) resp. 0 (withdrawing) — a group still
obligated by another ancestor is pruned and keeps its tasks frozen. -/
theorem C5_walk_depth (H : Hier) (s : State) (v : Bool) (ds : List Nat)
    (d : Nat) (hnd : ds.Nodup) (hd : d ∈ ds) (hdead : H.dead d = false)
    (hnn : v = true → 0 ≤ (s.grp d).eFreeze)
    (hnn' : v = false → 1 ≤ (s.grp d).eFreeze) :
    ((cgroup_freeze_walk H s v ds).1.grp d).eFreeze =
      (s.grp d).eFreeze + (if v = true then 1 else -1) ∧
    (v = true → (d ∈ (cgroup_freeze_walk H s v ds).2 ↔
      ((cgroup_freeze_walk H s v ds).1.grp d).eFreeze = 1)) ∧
    (v = false → (d ∈ (cgroup_freeze_walk H s v ds).2 ↔
      ((cgroup_freeze_walk H s v ds).1.grp d).eFreeze = 0)) := by
  have he := walk_eFreeze_mem H v d ds s hnd hd hdead
  have hm := walk_proc_mem H v ds s d hnd hd hdead
  refine ⟨he, ?_, ?_⟩
  · intro hv
    subst hv
    have hif : (if (true : Bool) = true then (1 : Int) else -1) = 1 := by
      decide
    rw [hif] at he
    rw [if_pos rfl] at hm
    rw [hm, he]
    have := hnn rfl
    constructor <;> intro <;> omega
  · intro hv
    subst hv
    have hif : (if (false : Bool) = true then (1 : Int) else -1) = -1 := by
      decide
    rw [hif] at he
    rw [if_neg (by decide : ¬((false : Bool) = true))] at hm
    rw [hm, he]
    have := hnn' rfl
    constructor <;> intro <;> omega

theorem C5_walk_depth_witness :
    (((cgroup_freeze_walk HierW sA true [0, 1]).1.grp 1).eFreeze =
      (sA.grp 1).eFreeze + (if true = true then 1 else -1)) ∧
    (true = true → (1 ∈ (cgroup_freeze_walk HierW sA true [0, 1]).2 ↔
      ((cgroup_freeze_walk HierW sA true [0, 1]).1.grp 1).eFreeze = 1)) ∧
    (true = false → (1 ∈ (cgroup_freeze_walk HierW sA true [0, 1]).2 ↔
      ((cgroup_freeze_walk HierW sA true [0, 1]).1.grp 1).eFreeze = 0)) :=
  C5_walk_depth HierW sA true [0, 1] 1 (by decide) (by decide) (by decide)
    (fun _ => by decide) (fun h => by cases h)

/-- C6: `cgroup_freeze` is a no-op — the state, all flags, depths,
counters and the action log included, is returned unchanged — when the
requested value is already recorded in the group's `freezer.freeze`
field; consequently issuing the same freeze request twice in a row
leaves exactly the state produced by issuing it once. -/
theorem C6_set_freeze_idempotent (H : Hier) (s : State) (g : Nat) :
    cgroup_freeze H s g ((s.grp g).freeze) = s ∧
    cgroup_freeze H (cgroup_freeze H s g true) g true =
      cgroup_freeze H s g true := by
  constructor
  · rw [cgroup_freeze]
    rw [if_pos (by simp)]
  · by_cases hfl : (s.grp g).freeze = true
    · have h1 : cgroup_freeze H s g true = s := by
        rw [cgroup_freeze]
        rw [if_pos (by simp [hfl])]
      rw [h1]
      exact h1
    · have hflag : ((cgroup_freeze H s g true).grp g).freeze = true := by
        rw [cgroup_freeze]
        rw [if_neg (by simp [hfl])]
        dsimp only
        split
        · simp only [grp_pushLog]
          rw [(walk_dpres H true (H.descPre g)
            (updGrp s g fun x => { x with freeze := true })).freeze g]
          simp
        · rw [(walk_dpres H true (H.descPre g)
            (updGrp s g fun x => { x with freeze := true })).freeze g]
          simp
      conv_lhs => rw [cgroup_freeze]
      rw [if_pos (by simp [hflag])]

/-- C7: in every state reachable over a well-formed tree by the
mutating operations of the core (balanced administrative freeze/thaw
walks — the guard of `cgroup_freeze` enforces per-group alternation —
and the matched counter increments/decrements of the enter/leave,
migration and frozen-exit hooks), no group's nested freeze depth
`e_freeze` or frozen-task counter is negative, and no `WARN_ON_ONCE`
invariant assertion (negative counter or negative depth) has fired. -/
theorem C7_nonneg_no_warn (H : Hier) (s : State) (hW : WF H)
    (hr : Reachable H s) :
    (∀ g, 0 ≤ (s.grp g).eFreeze ∧ 0 ≤ (s.grp g).nrFrozenTasks) ∧
    s.warned = false := by
  obtain ⟨h1, h2, h3, h4, h5, h6⟩ := inv_reachable H hW hr
  refine ⟨fun g => ⟨?_, ?_⟩, h6⟩
  · rw [h3 g]
    omega
  · rw [h2 g]
    omega

theorem C7_nonneg_no_warn_witness :
    (∀ g, 0 ≤ ((cgroup_freeze HierT sK 0 true).grp g).eFreeze ∧
      0 ≤ ((cgroup_freeze HierT sK 0 true).grp g).nrFrozenTasks) ∧
    (cgroup_freeze HierT sK 0 true).warned = false :=
  C7_nonneg_no_warn HierT (cgroup_freeze HierT sK 0 true) WF_HierT
    ⟨sK, isInit_sK,
      Relation.ReflTransGen.single (Step.setFreeze sK 0 true)⟩

/-- C8: a task attempting to leave the frozen state without being
forced (`always_leave = false`) while its owning group's `CGRP_FREEZE`
request is still set changes nothing — every group record, including the
frozen-task counter, and every task record, including the task's frozen
flag, are untouched — and the only effect is a `recalc_sigpending`
action forcing the task back into the signal-handling loop before it
can reach userspace. -/
theorem C8_no_leak_while_freezing (H : Hier) (s : State) (t : Nat)
    (hfr : (s.grp ((s.tsk t).owner)).cgrpFreeze = true)
    (hf : (s.tsk t).frozen = true) :
    (cgroup_leave_frozen H s t false).grp = s.grp ∧
    (cgroup_leave_frozen H s t false).tsk = s.tsk ∧
    ((cgroup_leave_frozen H s t false).tsk t).frozen = true ∧
    (cgroup_leave_frozen H s t false).log =
      s.log ++ [Event.recalcSigpending t] := by
  have h := leave_frozen_eq_race H s t false hf (by simp [hfr])
  rw [h]
  exact ⟨rfl, rfl, hf, rfl⟩

theorem C8_no_leak_while_freezing_witness :
    (cgroup_leave_frozen HierW sC8 5 false).grp = sC8.grp ∧
    (cgroup_leave_frozen HierW sC8 5 false).tsk = sC8.tsk ∧
    ((cgroup_leave_frozen HierW sC8 5 false).tsk 5).frozen = true ∧
    (cgroup_leave_frozen HierW sC8 5 false).log =
      sC8.log ++ [Event.recalcSigpending 5] :=
  C8_no_leak_while_freezing HierW sC8 5 (by decide) (by decide)

lemma grp_dec_frozen_cnt (s : State) (c : Nat) :
    (cgroup_dec_frozen_cnt s c).grp =
      (updGrp s c
        (fun g => { g with nrFrozenTasks := g.nrFrozenTasks - 1 })).grp := by
  rw [cgroup_dec_frozen_cnt]
  split <;> rfl

lemma log_dec_frozen_cnt (s : State) (c : Nat) :
    (cgroup_dec_frozen_cnt s c).log = s.log := by
  rw [cgroup_dec_frozen_cnt]
  split <;> rfl

/-- C2 (counterexample): migrating the already-frozen task 5 into
destination group 1 whose requested state (`CGRP_FREEZE` set) matches
the task's frozen state nevertheless issues a freeze action to the task
— `cgroup_freezer_migrate_task` runs `cgroup_freeze_task`
unconditionally at its end — so the claim's "issues no freeze or thaw
signal to the task when B's requested state already matches the task's
frozen state" fails on the code. -/
theorem C2_counterexample :
    (sC2.grp 1).cgrpFreeze = true ∧ (sC2.tsk 5).frozen = true ∧
    (sC2.tsk 5).kthread = false ∧ sC2.log = [] ∧
    Event.freezeTask 5 true ∈ runC2.log := by
  decide

/-- C2 (amended): migrating an already-frozen, non-exempt, live task
between distinct groups (whose recorded ancestor chains are
non-degenerate and whose destination is not an ancestor of the source)
decrements the source's frozen-task count by one, increments the
destination's by one, preserves the task's frozen status, recomputes
both groups' aggregate `CGRP_FROZEN` bits against the rebalanced
counters — and, contrary to the original claim, always issues the
freeze/thaw action carrying the destination's requested state to the
task, matching or not. -/
theorem C2_migrate_rebalance (H : Hier) (s : State) (t src dst : Nat)
    (hk : (s.tsk t).kthread = false) (hf : (s.tsk t).frozen = true)
    (hd : (s.tsk t).dying = false) (hsd : src ≠ dst)
    (hsrc : src ∉ H.anc src) (hdst : dst ∉ H.anc dst)
    (hds : dst ∉ H.anc src) :
    ((cgroup_freezer_migrate_task H s t src dst).grp src).nrFrozenTasks =
      (s.grp src).nrFrozenTasks - 1 ∧
    ((cgroup_freezer_migrate_task H s t src dst).grp dst).nrFrozenTasks =
      (s.grp dst).nrFrozenTasks + 1 ∧
    ((cgroup_freezer_migrate_task H s t src dst).tsk t).frozen = true ∧
    ((cgroup_freezer_migrate_task H s t src dst).grp dst).cgrpFrozen =
      ((s.grp dst).cgrpFreeze &&
        ((s.grp dst).nrFrozenTasks + 1 == cgroupTaskCount s dst)) ∧
    ((cgroup_freezer_migrate_task H s t src dst).grp src).cgrpFrozen =
      ((s.grp src).cgrpFreeze &&
        ((s.grp src).nrFrozenTasks - 1 == cgroupTaskCount s src)) ∧
    (∃ l, (cgroup_freezer_migrate_task H s t src dst).log =
        s.log ++ l ++ [Event.freezeTask t ((s.grp dst).cgrpFreeze)] ∧
      ∀ e ∈ l, ∃ p, e = Event.notify p) := by
  have hstep : cgroup_freezer_migrate_task H s t src dst =
      cgroup_freeze_task
        (cgroup_update_frozen H
          (cgroup_update_frozen H
            (cgroup_dec_frozen_cnt (cgroup_inc_frozen_cnt s dst) src) dst)
          src) t
        (((cgroup_update_frozen H
            (cgroup_update_frozen H
              (cgroup_dec_frozen_cnt (cgroup_inc_frozen_cnt s dst) src) dst)
            src).grp dst).cgrpFreeze) := by
    rw [cgroup_freezer_migrate_task]
    rw [if_neg (by simp [hk])]
    dsimp only
    rw [if_pos hf]
  have h1tsk : (cgroup_dec_frozen_cnt (cgroup_inc_frozen_cnt s dst) src).tsk =
      s.tsk := by
    rw [tsk_dec_frozen_cnt]
    rfl
  have h1tids :
      (cgroup_dec_frozen_cnt (cgroup_inc_frozen_cnt s dst) src).tids =
      s.tids := by
    rw [tids_dec_frozen_cnt]
    rfl
  have h1log : (cgroup_dec_frozen_cnt (cgroup_inc_frozen_cnt s dst) src).log =
      s.log := by
    rw [log_dec_frozen_cnt]
    rfl
  have h1src :
      ((cgroup_dec_frozen_cnt (cgroup_inc_frozen_cnt s dst) src).grp src) =
      { s.grp src with nrFrozenTasks := (s.grp src).nrFrozenTasks - 1 } := by
    rw [grp_dec_frozen_cnt]
    rw [grp_updGrp, if_pos rfl]
    rw [cgroup_inc_frozen_cnt]
    rw [grp_updGrp, if_neg hsd]
  have h1dst :
      ((cgroup_dec_frozen_cnt (cgroup_inc_frozen_cnt s dst) src).grp dst) =
      { s.grp dst with nrFrozenTasks := (s.grp dst).nrFrozenTasks + 1 } := by
    rw [grp_dec_frozen_cnt]
    rw [grp_updGrp, if_neg (fun h => hsd h.symm)]
    rw [cgroup_inc_frozen_cnt]
    rw [grp_updGrp, if_pos rfl]
  have h1cnt :
      cgroupTaskCount (cgroup_dec_frozen_cnt (cgroup_inc_frozen_cnt s dst)
        src) = cgroupTaskCount s := by
    funext g
    rw [cgroupTaskCount, cgroupTaskCount, countedTasks_congr h1tids h1tsk]
  have hp2 := update_frozen_ppres H
    (cgroup_dec_frozen_cnt (cgroup_inc_frozen_cnt s dst) src) dst
  have hp3 := update_frozen_ppres H
    (cgroup_update_frozen H
      (cgroup_dec_frozen_cnt (cgroup_inc_frozen_cnt s dst) src) dst) src
  have h2cnt :
      cgroupTaskCount (cgroup_update_frozen H
        (cgroup_dec_frozen_cnt (cgroup_inc_frozen_cnt s dst) src) dst) =
      cgroupTaskCount s := by
    funext g
    rw [cgroupTaskCount, cgroupTaskCount,
      countedTasks_congr (hp2.tids.trans h1tids) (hp2.tsk.trans h1tsk)]
  refine ⟨?_, ?_, ?_, ?_, ?_, ?_⟩
  · rw [hstep, grp_freeze_task, hp3.nrFrozenTasks src, hp2.nrFrozenTasks src,
      h1src]
  · rw [hstep, grp_freeze_task, hp3.nrFrozenTasks dst, hp2.nrFrozenTasks dst,
      h1dst]
  · rw [hstep, tsk_freeze_task_frozen, hp3.tsk, hp2.tsk, h1tsk, hf]
  · rw [hstep, grp_freeze_task]
    rw [update_frozen_grp_not_mem H _ src dst (fun h => hsd h.symm) hds]
    rw [update_frozen_result H _ dst hdst]
    rw [h1dst, h1cnt]
  · rw [hstep, grp_freeze_task]
    rw [update_frozen_result H _ src hsrc]
    rw [hp2.cgrpFreeze src, hp2.nrFrozenTasks src, h1src, h2cnt]
  · obtain ⟨ns2, hl2, he2⟩ := hp2.log
    obtain ⟨ns3, hl3, he3⟩ := hp3.log
    refine ⟨ns2 ++ ns3, ?_, ?_⟩
    · have hv : ((cgroup_update_frozen H
          (cgroup_update_frozen H
            (cgroup_dec_frozen_cnt (cgroup_inc_frozen_cnt s dst) src) dst)
          src).grp dst).cgrpFreeze = (s.grp dst).cgrpFreeze := by
        rw [hp3.cgrpFreeze dst, hp2.cgrpFreeze dst, h1dst]
      have hdy : ((cgroup_update_frozen H
          (cgroup_update_frozen H
            (cgroup_dec_frozen_cnt (cgroup_inc_frozen_cnt s dst) src) dst)
          src).tsk t).dying = false := by
        rw [hp3.tsk, hp2.tsk, h1tsk, hd]
      rw [hstep, hv, cgroup_freeze_task, if_neg (by simp [hdy])]
      rw [log_pushLog, log_updTsk, hl3, hl2, h1log]
      simp
    · intro e he
      rcases List.mem_append.1 he with h | h
      · exact he2 e h
      · exact he3 e h

theorem C2_migrate_rebalance_witness :
    ((cgroup_freezer_migrate_task HierW sC2 5 0 1).grp 0).nrFrozenTasks =
      (sC2.grp 0).nrFrozenTasks - 1 ∧
    ((cgroup_freezer_migrate_task HierW sC2 5 0 1).grp 1).nrFrozenTasks =
      (sC2.grp 1).nrFrozenTasks + 1 ∧
    ((cgroup_freezer_migrate_task HierW sC2 5 0 1).tsk 5).frozen = true ∧
    ((cgroup_freezer_migrate_task HierW sC2 5 0 1).grp 1).cgrpFrozen =
      ((sC2.grp 1).cgrpFreeze &&
        ((sC2.grp 1).nrFrozenTasks + 1 == cgroupTaskCount sC2 1)) ∧
    ((cgroup_freezer_migrate_task HierW sC2 5 0 1).grp 0).cgrpFrozen =
      ((sC2.grp 0).cgrpFreeze &&
        ((sC2.grp 0).nrFrozenTasks - 1 == cgroupTaskCount sC2 0)) ∧
    (∃ l, (cgroup_freezer_migrate_task HierW sC2 5 0 1).log =
        sC2.log ++ l ++ [Event.freezeTask 5 ((sC2.grp 1).cgrpFreeze)] ∧
      ∀ e ∈ l, ∃ p, e = Event.notify p) :=
  C2_migrate_rebalance HierW sC2 5 0 1 (by decide) (by decide) (by decide)
    (by decide) (by decide) (by decide) (by decide)

lemma foldl_pushLog (f : Nat → Event) (l : List Nat) : ∀ (s : State),
    l.foldl (fun acc t => pushLog acc (f t)) s =
      { s with log := s.log ++ l.map f } := by
  induction l with
  | nil => intro s; simp
  | cons t l ih =>
    intro s
    rw [List.foldl_cons, ih (pushLog s (f t))]
    simp [pushLog]

lemma freeze_cgroup_eq (s : State) (c : Nat) :
    freeze_cgroup s c =
      { s with log := s.log ++ (tasksOf s c).map Event.freezeLegacy } := by
  rw [freeze_cgroup, foldl_pushLog]

lemma unfreeze_fold_fst (l : List Nat) : ∀ (s : State) (u : Nat),
    (l.foldl
      (fun (p : State × Nat) t =>
        (pushLog p.1 (Event.thaw t),
         if ((p.1).tsk t).hasCred then ((p.1).tsk t).uid else p.2))
      (s, u)) =
    ({ s with log := s.log ++ l.map Event.thaw },
     l.foldl (fun a t => if (s.tsk t).hasCred then (s.tsk t).uid else a) u) := by
  induction l with
  | nil => intro s u; simp
  | cons t l ih =>
    intro s u
    rw [List.foldl_cons, List.foldl_cons, ih]
    simp [pushLog]

lemma unfreeze_fold_snd (u : Nat) (l : List Nat) : ∀ (s : State),
    l.foldl
      (fun acc p =>
        if (acc.tsk p).hasCred && (acc.tsk p).uid == u then
          pushLog acc (Event.thaw p)
        else acc) s =
    { s with log := s.log ++
        ((l.filter
          (fun p => (s.tsk p).hasCred && (s.tsk p).uid == u)).map
          Event.thaw) } := by
  induction l with
  | nil => intro s; simp
  | cons p l ih =>
    intro s
    rw [List.foldl_cons]
    by_cases h : ((s.tsk p).hasCred && (s.tsk p).uid == u) = true
    · rw [if_pos h, ih (pushLog s (Event.thaw p))]
      simp [pushLog, List.filter_cons, h]
    · rw [if_neg h, ih s]
      simp only [List.filter_cons]
      rw [if_neg h]

lemma unfreeze_cgroup_eq (s : State) (c : Nat) :
    unfreeze_cgroup s c =
      { s with log := s.log ++
        ((tasksOf s c).map Event.thaw ++
          (s.tids.filter
            (fun p => (s.tsk p).hasCred && (s.tsk p).uid ==
              (tasksOf s c).foldl
                (fun a t => if (s.tsk t).hasCred then (s.tsk t).uid else a)
                4294967295)).map Event.thaw) } := by
  rw [unfreeze_cgroup]
  rw [unfreeze_fold_fst]
  dsimp only
  rw [unfreeze_fold_snd]
  simp

lemma apply_state_tsk (s : State) (c : Nat) (f : Bool) (b : FreezingBit) :
    (freezer_apply_state s c f b).tsk = s.tsk := by
  rw [freezer_apply_state]
  split
  · rfl
  · split
    · dsimp only
      rw [freeze_cgroup_eq]
      split <;> rfl
    · dsimp only
      split
      · rw [unfreeze_cgroup_eq]
        split <;> rfl
      · rfl

lemma apply_state_tids (s : State) (c : Nat) (f : Bool) (b : FreezingBit) :
    (freezer_apply_state s c f b).tids = s.tids := by
  rw [freezer_apply_state]
  split
  · rfl
  · split
    · dsimp only
      rw [freeze_cgroup_eq]
      split <;> rfl
    · dsimp only
      split
      · rw [unfreeze_cgroup_eq]
        split <;> rfl
      · rfl

lemma apply_state_leg_ne (s : State) (c : Nat) (f : Bool) (b : FreezingBit)
    (g : Nat) (hg : g ≠ c) :
    (freezer_apply_state s c f b).leg g = s.leg g := by
  rw [freezer_apply_state]
  split
  · rfl
  · split
    · dsimp only
      rw [freeze_cgroup_eq]
      split <;> simp [updLeg, hg]
    · dsimp only
      split
      · rw [unfreeze_cgroup_eq]
        split <;> simp [updLeg, hg]
      · simp [updLeg, hg]

lemma apply_state_log (s : State) (c : Nat) (f : Bool) (b : FreezingBit) :
    ∃ l, (freezer_apply_state s c f b).log = s.log ++ l ∧
      ∀ e ∈ l, (∃ p, e = Event.thaw p) ∨
        (∃ p, p ∈ tasksOf s c ∧ e = Event.freezeLegacy p) := by
  rw [freezer_apply_state]
  split
  · exact ⟨[], by simp, by simp⟩
  · split
    · dsimp only
      rw [freeze_cgroup_eq]
      split
      all_goals
        refine ⟨(tasksOf s c).map Event.freezeLegacy, rfl, ?_⟩
        intro e he
        simp only [List.mem_map] at he
        obtain ⟨p, hp, rfl⟩ := he
        exact Or.inr ⟨p, hp, rfl⟩
    · dsimp only
      split
      · rw [unfreeze_cgroup_eq]
        split
        all_goals
          refine ⟨_, rfl, ?_⟩
          intro e he
          rcases List.mem_append.1 he with h | h <;>
            · simp only [List.mem_map] at h
              obtain ⟨p, hp, rfl⟩ := h
              exact Or.inl ⟨p, rfl⟩
      · exact ⟨[], by simp [updLeg], by simp⟩

lemma apply_state_thaw_root (s : State) (c : Nat)
    (honline : (s.leg c).online = true)
    (hfp : (s.leg c).freezingParent = false) :
    ((freezer_apply_state s c false FreezingBit.self).leg c).freezingSelf
        = false ∧
    ((freezer_apply_state s c false FreezingBit.self).leg c).frozen = false ∧
    ((freezer_apply_state s c false FreezingBit.self).leg c).oemFreezeFlag
        = (s.leg c).oemFreezeFlag ∧
    (∀ p, p ∈ tasksOf s c →
      Event.thaw p ∈ (freezer_apply_state s c false FreezingBit.self).log) ∧
    (∃ l, (freezer_apply_state s c false FreezingBit.self).log
        = s.log ++ l ∧ ∀ e ∈ l, ∃ p, e = Event.thaw p) := by
  rw [freezer_apply_state]
  rw [if_neg (by simp [honline])]
  rw [if_neg (by simp)]
  dsimp only
  rw [if_pos (by simp [updLeg, setFreezingBit, legFreezing, hfp])]
  split
  · rw [unfreeze_cgroup_eq]
    refine ⟨by simp [updLeg, setFreezingBit],
      by simp [updLeg, setFreezingBit],
      by simp [updLeg, setFreezingBit], ?_, ?_⟩
    · intro p hp
      simp only [List.mem_append, List.mem_map]
      exact Or.inr (Or.inl ⟨p, hp, rfl⟩)
    · refine ⟨_, rfl, ?_⟩
      intro e he
      rcases List.mem_append.1 he with h | h <;>
        · simp only [List.mem_map] at h
          obtain ⟨p, hp, rfl⟩ := h
          exact ⟨p, rfl⟩
  · rw [unfreeze_cgroup_eq]
    refine ⟨by simp [updLeg, setFreezingBit],
      by simp [updLeg, setFreezingBit],
      by simp [updLeg, setFreezingBit], ?_, ?_⟩
    · intro p hp
      simp only [List.mem_append, List.mem_map]
      exact Or.inr (Or.inl ⟨p, hp, rfl⟩)
    · refine ⟨_, rfl, ?_⟩
      intro e he
      rcases List.mem_append.1 he with h | h <;>
        · simp only [List.mem_map] at h
          obtain ⟨p, hp, rfl⟩ := h
          exact ⟨p, rfl⟩

lemma changeStep_tsk (H : Hier) (c : Nat) (f : Bool) (acc : State) (d : Nat) :
    (changeStateStep H c f acc d).tsk = acc.tsk := by
  rw [changeStateStep]
  split
  · rfl
  · split
    · exact apply_state_tsk acc d f FreezingBit.self
    · exact apply_state_tsk acc d _ FreezingBit.parent

lemma changeStep_tids (H : Hier) (c : Nat) (f : Bool) (acc : State) (d : Nat) :
    (changeStateStep H c f acc d).tids = acc.tids := by
  rw [changeStateStep]
  split
  · rfl
  · split
    · exact apply_state_tids acc d f FreezingBit.self
    · exact apply_state_tids acc d _ FreezingBit.parent

lemma changeStep_leg_ne (H : Hier) (c : Nat) (f : Bool) (acc : State)
    (d g : Nat) (hg : g ≠ d) :
    (changeStateStep H c f acc d).leg g = acc.leg g := by
  rw [changeStateStep]
  split
  · rfl
  · split
    · exact apply_state_leg_ne acc d f FreezingBit.self g hg
    · exact apply_state_leg_ne acc d _ FreezingBit.parent g hg

lemma changeStep_log (H : Hier) (c : Nat) (f : Bool) (acc : State) (d : Nat) :
    ∃ l, (changeStateStep H c f acc d).log = acc.log ++ l ∧
      ∀ e ∈ l, (∃ p, e = Event.thaw p) ∨
        (∃ p, p ∈ tasksOf acc d ∧ e = Event.freezeLegacy p) := by
  rw [changeStateStep]
  split
  · exact ⟨[], by simp, by simp⟩
  · split
    · exact apply_state_log acc d f FreezingBit.self
    · exact apply_state_log acc d _ FreezingBit.parent

lemma change_fold_pres (H : Hier) (c : Nat) (f : Bool) (ds : List Nat) :
    ∀ (s : State), (∀ d ∈ ds, d ≠ c) →
      (ds.foldl (changeStateStep H c f) s).leg c = s.leg c ∧
      (ds.foldl (changeStateStep H c f) s).tsk = s.tsk ∧
      (ds.foldl (changeStateStep H c f) s).tids = s.tids ∧
      ∃ l, (ds.foldl (changeStateStep H c f) s).log = s.log ++ l ∧
        ∀ e ∈ l, (∃ p, e = Event.thaw p) ∨
          (∃ p d, d ≠ c ∧ p ∈ tasksOf s d ∧ e = Event.freezeLegacy p) := by
  induction ds with
  | nil => intro s _; exact ⟨rfl, rfl, rfl, [], by simp, by simp⟩
  | cons d ds ih =>
    intro s hds
    have hd : d ≠ c := hds d (List.mem_cons_self d ds)
    obtain ⟨l1, hl1, he1⟩ := changeStep_log H c f s d
    obtain ⟨hleg, htsk, htids, l2, hl2, he2⟩ :=
      ih (changeStateStep H c f s d) (fun x hx => hds x (List.mem_cons_of_mem d hx))
    have hto : tasksOf (changeStateStep H c f s d) = tasksOf s :=
      tasksOf_congr (changeStep_tids H c f s d) (changeStep_tsk H c f s d)
    rw [List.foldl_cons]
    refine ⟨?_, ?_, ?_, l1 ++ l2, ?_, ?_⟩
    · rw [hleg, changeStep_leg_ne H c f s d c (fun h => hd h.symm)]
    · rw [htsk, changeStep_tsk H c f s d]
    · rw [htids, changeStep_tids H c f s d]
    · rw [hl2, hl1, List.append_assoc]
    · intro e he
      rcases List.mem_append.1 he with h | h
      · rcases he1 e h with h1 | ⟨p, hp, h2⟩
        · exact Or.inl h1
        · exact Or.inr ⟨p, d, hd, hp, h2⟩
      · rcases he2 e h with h1 | ⟨p, d', hdc, hp, h2⟩
        · exact Or.inl h1
        · rw [hto] at hp
          exact Or.inr ⟨p, d', hdc, hp, h2⟩

lemma change_state_false (H : Hier) (s : State) (c : Nat) (rest : List Nat)
    (honline : (s.leg c).online = true)
    (hfp : (s.leg c).freezingParent = false)
    (hpre : H.descPre c = c :: rest)
    (hrest : ∀ d ∈ rest, d ≠ c) :
    ((freezer_change_state H s c false).leg c).freezingSelf = false ∧
    ((freezer_change_state H s c false).leg c).frozen = false ∧
    ((freezer_change_state H s c false).leg c).oemFreezeFlag = 0 ∧
    (∀ p, p ∈ tasksOf s c →
      Event.thaw p ∈ (freezer_change_state H s c false).log) ∧
    (∃ l, (freezer_change_state H s c false).log = s.log ++ l ∧
      ∀ e ∈ l, (∃ p, e = Event.thaw p) ∨
        (∃ p d, d ≠ c ∧ p ∈ tasksOf s d ∧ e = Event.freezeLegacy p)) := by
  rw [freezer_change_state]
  rw [hpre, List.foldl_cons]
  rw [changeStateStep]
  rw [if_neg (by simp [updLeg, honline])]
  rw [if_pos rfl]
  have key := apply_state_thaw_root
    (updLeg s c fun f =>
      { f with oemFreezeFlag := if (false : Bool) = true then 1 else 0 }) c
    (by simp [updLeg, honline]) (by simp [updLeg, hfp])
  obtain ⟨k1, k2, k3, k4, lroot, klog, kthaw⟩ := key
  obtain ⟨fleg, ftsk, ftids, l2, fl2, fe2⟩ :=
    change_fold_pres H c false rest
      (freezer_apply_state
        (updLeg s c fun f =>
          { f with oemFreezeFlag := if (false : Bool) = true then 1 else 0 }) c
        false FreezingBit.self) hrest
  have hto : tasksOf
      (freezer_apply_state
        (updLeg s c fun f =>
          { f with oemFreezeFlag := if (false : Bool) = true then 1 else 0 }) c
        false FreezingBit.self) = tasksOf s := by
    refine tasksOf_congr ?_ ?_
    · rw [apply_state_tids]
      rfl
    · rw [apply_state_tsk]
      rfl
  refine ⟨?_, ?_, ?_, ?_, ?_⟩
  · rw [fleg, k1]
  · rw [fleg, k2]
  · rw [fleg, k3]
    simp [updLeg]
  · intro p hp
    rw [fl2]
    exact List.mem_append.2 (Or.inl (k4 p hp))
  · refine ⟨lroot ++ l2, ?_, ?_⟩
    · rw [fl2, klog, List.append_assoc]
      rfl
    · intro e he
      rcases List.mem_append.1 he with h | h
      · exact Or.inl (kthaw e h)
      · rcases fe2 e h with h1 | ⟨p, d', hdc, hp, h2⟩
        · exact Or.inl h1
        · rw [hto] at hp
          exact Or.inr ⟨p, d', hdc, hp, h2⟩

/-- C3 (counterexample): task 5 is forked into non-root group 1 whose
recorded last-issued intent is freeze (`oem_freeze_flag = 1`) and which
is marked frozen and freezing — yet the fork-completion hook
`unfreezer_fork` calls `freezer_change_state(freezer, 0)`, i.e. it
thaws the subtree: afterwards the group is no longer frozen or
freezing, the intent flag is cleared, and the only actions issued are
two thaws of the child — the child does not end up frozen. -/
theorem C3_counterexample :
    (sC3.leg 1).oemFreezeFlag = 1 ∧ (sC3.leg 1).frozen = true ∧
    (sC3.leg 1).freezingSelf = true ∧ (sC3.tsk 5).owner = 1 ∧
    (HierW.anc 1).isEmpty = false ∧
    (runC3.leg 1).frozen = false ∧ (runC3.leg 1).freezingSelf = false ∧
    (runC3.leg 1).oemFreezeFlag = 0 ∧
    runC3.log = [Event.thaw 5, Event.thaw 5] := by
  decide

/-- C3 (amended): for a task forked into a non-root, online group whose
recorded last-issued intent is freeze (`oem_freeze_flag = 1`) and which
is not freezing on behalf of a parent, the fork-completion hook
`unfreezer_fork` does the opposite of enforcing the freeze intent: it
clears the group's `FREEZING_SELF` and `FROZEN` flags and the intent
flag, issues a thaw to the forked child, and never issues a legacy
freeze request to it. -/
theorem C3_fork_thaws (H : Hier) (s : State) (t c : Nat) (rest : List Nat)
    (hc : (s.tsk t).owner = c)
    (hroot : (H.anc c).isEmpty = false)
    (hoem : (s.leg c).oemFreezeFlag = 1)
    (honline : (s.leg c).online = true)
    (hfp : (s.leg c).freezingParent = false)
    (ht : t ∈ s.tids)
    (hpre : H.descPre c = c :: rest)
    (hrest : ∀ d ∈ rest, d ≠ c)
    (hnol : Event.freezeLegacy t ∉ s.log) :
    ((unfreezer_fork H s t).leg c).freezingSelf = false ∧
    ((unfreezer_fork H s t).leg c).frozen = false ∧
    ((unfreezer_fork H s t).leg c).oemFreezeFlag = 0 ∧
    Event.thaw t ∈ (unfreezer_fork H s t).log ∧
    Event.freezeLegacy t ∉ (unfreezer_fork H s t).log := by
  have hfork : unfreezer_fork H s t = freezer_change_state H s c false := by
    rw [unfreezer_fork]
    rw [hc]
    rw [if_neg (by simp [hroot])]
    rw [if_neg (by simp [hoem])]
  obtain ⟨g1, g2, g3, g4, l, hl, he⟩ :=
    change_state_false H s c rest honline hfp hpre hrest
  have htm : t ∈ tasksOf s c := by
    rw [tasksOf, List.mem_filter]
    exact ⟨ht, by simp [hc]⟩
  refine ⟨by rw [hfork]; exact g1, by rw [hfork]; exact g2,
    by rw [hfork]; exact g3, by rw [hfork]; exact g4 t htm, ?_⟩
  rw [hfork, hl]
  intro hmem
  rcases List.mem_append.1 hmem with h | h
  · exact hnol h
  · rcases he _ h with ⟨p, hp⟩ | ⟨p, d, hdc, hp, h2⟩
    · cases hp
    · have hpt : p = t := by
        cases h2
        rfl
      rw [tasksOf, List.mem_filter] at hp
      have : (s.tsk p).owner = d := by simpa using hp.2
      rw [hpt, hc] at this
      exact hdc this.symm

theorem C3_fork_thaws_witness :
    ((unfreezer_fork HierW sC3 5).leg 1).freezingSelf = false ∧
    ((unfreezer_fork HierW sC3 5).leg 1).frozen = false ∧
    ((unfreezer_fork HierW sC3 5).leg 1).oemFreezeFlag = 0 ∧
    Event.thaw 5 ∈ (unfreezer_fork HierW sC3 5).log ∧
    Event.freezeLegacy 5 ∉ (unfreezer_fork HierW sC3 5).log :=
  C3_fork_thaws HierW sC3 5 1 [] (by decide) (by decide) (by decide)
    (by decide) (by decide) (by decide) (by decide) (by decide) (by decide)

lemma setbit_online (fl : LegacyState) (b : FreezingBit) (v : Bool) :
    (setFreezingBit fl b v).online = fl.online := by
  cases b <;> rfl

lemma setbit_true_freezing (fl : LegacyState) (b : FreezingBit) :
    legFreezing (setFreezingBit fl b true) = true := by
  cases b <;> simp [setFreezingBit, legFreezing]

lemma cnt_invariant_flip (groups : List Nat) (hnd : groups.Nodup) (c : Nat)
    (hc : c ∈ groups) (leg leg' : Nat → LegacyState)
    (hne : ∀ x, x ≠ c → leg' x = leg x)
    (cnt cnt' : Int)
    (hcnt : cnt = ((groups.filter
      (fun g => (leg g).online && legFreezing (leg g))).length : Int))
    (hdelta : cnt' = cnt +
      (if (leg' c).online && legFreezing (leg' c) then 1 else 0) -
      (if (leg c).online && legFreezing (leg c) then 1 else 0)) :
    cnt' = ((groups.filter
      (fun g => (leg' g).online && legFreezing (leg' g))).length : Int) := by
  have hflip := length_filter_flip c
    (fun g => (leg g).online && legFreezing (leg g))
    (fun g => (leg' g).online && legFreezing (leg' g))
    (fun x hx => by simp only [hne x hx]) groups hnd hc
  rw [hflip, ← hcnt, hdelta]

lemma apply_cnt_delta_self (s : State) (c : Nat) (f : Bool) :
    (freezer_apply_state s c f FreezingBit.self).systemFreezingCnt =
      s.systemFreezingCnt +
        (if ((freezer_apply_state s c f FreezingBit.self).leg c).online &&
            legFreezing ((freezer_apply_state s c f FreezingBit.self).leg c)
          then 1 else 0) -
        (if (s.leg c).online && legFreezing (s.leg c) then 1 else 0) := by
  rw [freezer_apply_state]
  split
  · simp
  · rename_i h1
    have ho : (s.leg c).online = true := by simpa using h1
    split
    · dsimp only
      split
      · rename_i h3
        have h3' : (s.leg c).freezingSelf = false ∧
            (s.leg c).freezingParent = false := by
          simpa [legFreezing] using h3
        rw [freeze_cgroup_eq]
        simp [updLeg, setFreezingBit, legFreezing, ho, h3'.1, h3'.2]
        try omega
      · rename_i h3
        have hl3 : legFreezing (s.leg c) = true := by simpa using h3
        have h3' : (s.leg c).freezingSelf = true ∨
            (s.leg c).freezingParent = true :=
          cast (Bool.or_eq_true ((s.leg c).freezingSelf)
            ((s.leg c).freezingParent)) hl3
        rw [freeze_cgroup_eq]
        rcases h3' with h | h <;>
          simp [updLeg, setFreezingBit, legFreezing, ho, h] <;> omega
    · dsimp only
      split
      · rename_i h3
        have h3' : (s.leg c).freezingParent = false := by
          simpa [updLeg, setFreezingBit, legFreezing] using h3
        split
        · rename_i h4
          have hl4 : legFreezing (s.leg c) = true := by simpa using h4
          have h4' : (s.leg c).freezingSelf = true ∨
              (s.leg c).freezingParent = true :=
            cast (Bool.or_eq_true ((s.leg c).freezingSelf)
              ((s.leg c).freezingParent)) hl4
          rw [unfreeze_cgroup_eq]
          rcases h4' with h | h
          · simp [updLeg, setFreezingBit, legFreezing, ho, h3', h]
            try omega
          · simp [h3'] at h
        · rename_i h4
          have h4' : (s.leg c).freezingSelf = false ∧
              (s.leg c).freezingParent = false := by
            simpa [legFreezing] using h4
          rw [unfreeze_cgroup_eq]
          simp [updLeg, setFreezingBit, legFreezing, ho, h4'.1, h4'.2]
          try omega
      · rename_i h3
        have h3' : (s.leg c).freezingParent = true := by
          simpa [updLeg, setFreezingBit, legFreezing] using h3
        simp [updLeg, setFreezingBit, legFreezing, ho, h3']
        try omega

lemma apply_cnt_delta_parent (s : State) (c : Nat) (f : Bool) :
    (freezer_apply_state s c f FreezingBit.parent).systemFreezingCnt =
      s.systemFreezingCnt +
        (if ((freezer_apply_state s c f FreezingBit.parent).leg c).online &&
            legFreezing ((freezer_apply_state s c f FreezingBit.parent).leg c)
          then 1 else 0) -
        (if (s.leg c).online && legFreezing (s.leg c) then 1 else 0) := by
  rw [freezer_apply_state]
  split
  · simp
  · rename_i h1
    have ho : (s.leg c).online = true := by simpa using h1
    split
    · dsimp only
      split
      · rename_i h3
        have h3' : (s.leg c).freezingSelf = false ∧
            (s.leg c).freezingParent = false := by
          simpa [legFreezing] using h3
        rw [freeze_cgroup_eq]
        simp [updLeg, setFreezingBit, legFreezing, ho, h3'.1, h3'.2]
        try omega
      · rename_i h3
        have hl3 : legFreezing (s.leg c) = true := by simpa using h3
        have h3' : (s.leg c).freezingSelf = true ∨
            (s.leg c).freezingParent = true :=
          cast (Bool.or_eq_true ((s.leg c).freezingSelf)
            ((s.leg c).freezingParent)) hl3
        rw [freeze_cgroup_eq]
        rcases h3' with h | h <;>
          simp [updLeg, setFreezingBit, legFreezing, ho, h] <;> omega
    · dsimp only
      split
      · rename_i h3
        have h3' : (s.leg c).freezingSelf = false := by
          simpa [updLeg, setFreezingBit, legFreezing] using h3
        split
        · rename_i h4
          have hl4 : legFreezing (s.leg c) = true := by simpa using h4
          have h4' : (s.leg c).freezingSelf = true ∨
              (s.leg c).freezingParent = true :=
            cast (Bool.or_eq_true ((s.leg c).freezingSelf)
              ((s.leg c).freezingParent)) hl4
          rw [unfreeze_cgroup_eq]
          rcases h4' with h | h
          · simp [h3'] at h
          · simp [updLeg, setFreezingBit, legFreezing, ho, h3', h]
            try omega
        · rename_i h4
          have h4' : (s.leg c).freezingSelf = false ∧
              (s.leg c).freezingParent = false := by
            simpa [legFreezing] using h4
          rw [unfreeze_cgroup_eq]
          simp [updLeg, setFreezingBit, legFreezing, ho, h4'.1, h4'.2]
          try omega
      · rename_i h3
        have h3' : (s.leg c).freezingSelf = true := by
          simpa [updLeg, setFreezingBit, legFreezing] using h3
        simp [updLeg, setFreezingBit, legFreezing, ho, h3']
        try omega

lemma apply_state_cnt_delta (s : State) (c : Nat) (f : Bool)
    (b : FreezingBit) :
    (freezer_apply_state s c f b).systemFreezingCnt =
      s.systemFreezingCnt +
        (if ((freezer_apply_state s c f b).leg c).online &&
            legFreezing ((freezer_apply_state s c f b).leg c) then 1
         else 0) -
        (if (s.leg c).online && legFreezing (s.leg c) then 1 else 0) := by
  cases b
  · exact apply_cnt_delta_self s c f
  · exact apply_cnt_delta_parent s c f

lemma apply_cnt_cases_self (s : State) (c : Nat) (f : Bool) :
    (freezer_apply_state s c f FreezingBit.self).systemFreezingCnt =
      s.systemFreezingCnt +
        (if (s.leg c).online && (f && !legFreezing (s.leg c)) then 1
         else if (s.leg c).online && (!f && (legFreezing (s.leg c) &&
             !legFreezing (setFreezingBit (s.leg c) FreezingBit.self false)))
           then -1
         else 0) := by
  rw [freezer_apply_state]
  split
  · rename_i h1
    have ho : (s.leg c).online = false := by simpa using h1
    simp [ho]
  · rename_i h1
    have ho : (s.leg c).online = true := by simpa using h1
    split
    · rename_i h2
      dsimp only
      split
      · rename_i h3
        have h3' : (s.leg c).freezingSelf = false ∧
            (s.leg c).freezingParent = false := by
          simpa [legFreezing] using h3
        rw [freeze_cgroup_eq]
        simp [updLeg, setFreezingBit, legFreezing, ho, h2, h3'.1, h3'.2]
        try omega
      · rename_i h3
        have hl3 : legFreezing (s.leg c) = true := by simpa using h3
        have h3' : (s.leg c).freezingSelf = true ∨
            (s.leg c).freezingParent = true :=
          cast (Bool.or_eq_true ((s.leg c).freezingSelf)
            ((s.leg c).freezingParent)) hl3
        rw [freeze_cgroup_eq]
        rcases h3' with h | h <;>
          simp [updLeg, setFreezingBit, legFreezing, ho, h2, h] <;> try omega
    · rename_i h2
      have hf : f = false := by simpa using h2
      dsimp only
      split
      · rename_i h3
        have h3' : (s.leg c).freezingParent = false := by
          simpa [updLeg, setFreezingBit, legFreezing] using h3
        split
        · rename_i h4
          have hl4 : legFreezing (s.leg c) = true := by simpa using h4
          have h4' : (s.leg c).freezingSelf = true ∨
              (s.leg c).freezingParent = true :=
            cast (Bool.or_eq_true ((s.leg c).freezingSelf)
              ((s.leg c).freezingParent)) hl4
          rw [unfreeze_cgroup_eq]
          rcases h4' with h | h
          · simp [updLeg, setFreezingBit, legFreezing, ho, hf, h3', h]
            try omega
          · simp [h3'] at h
        · rename_i h4
          have h4' : (s.leg c).freezingSelf = false ∧
              (s.leg c).freezingParent = false := by
            simpa [legFreezing] using h4
          rw [unfreeze_cgroup_eq]
          simp [updLeg, setFreezingBit, legFreezing, ho, hf, h4'.1, h4'.2]
          try omega
      · rename_i h3
        have h3' : (s.leg c).freezingParent = true := by
          simpa [updLeg, setFreezingBit, legFreezing] using h3
        simp [updLeg, setFreezingBit, legFreezing, ho, hf, h3']
        try omega

lemma apply_cnt_cases_parent (s : State) (c : Nat) (f : Bool) :
    (freezer_apply_state s c f FreezingBit.parent).systemFreezingCnt =
      s.systemFreezingCnt +
        (if (s.leg c).online && (f && !legFreezing (s.leg c)) then 1
         else if (s.leg c).online && (!f && (legFreezing (s.leg c) &&
             !legFreezing (setFreezingBit (s.leg c) FreezingBit.parent
               false)))
           then -1
         else 0) := by
  rw [freezer_apply_state]
  split
  · rename_i h1
    have ho : (s.leg c).online = false := by simpa using h1
    simp [ho]
  · rename_i h1
    have ho : (s.leg c).online = true := by simpa using h1
    split
    · rename_i h2
      dsimp only
      split
      · rename_i h3
        have h3' : (s.leg c).freezingSelf = false ∧
            (s.leg c).freezingParent = false := by
          simpa [legFreezing] using h3
        rw [freeze_cgroup_eq]
        simp [updLeg, setFreezingBit, legFreezing, ho, h2, h3'.1, h3'.2]
        try omega
      · rename_i h3
        have hl3 : legFreezing (s.leg c) = true := by simpa using h3
        have h3' : (s.leg c).freezingSelf = true ∨
            (s.leg c).freezingParent = true :=
          cast (Bool.or_eq_true ((s.leg c).freezingSelf)
            ((s.leg c).freezingParent)) hl3
        rw [freeze_cgroup_eq]
        rcases h3' with h | h <;>
          simp [updLeg, setFreezingBit, legFreezing, ho, h2, h] <;> try omega
    · rename_i h2
      have hf : f = false := by simpa using h2
      dsimp only
      split
      · rename_i h3
        have h3' : (s.leg c).freezingSelf = false := by
          simpa [updLeg, setFreezingBit, legFreezing] using h3
        split
        · rename_i h4
          have hl4 : legFreezing (s.leg c) = true := by simpa using h4
          have h4' : (s.leg c).freezingSelf = true ∨
              (s.leg c).freezingParent = true :=
            cast (Bool.or_eq_true ((s.leg c).freezingSelf)
              ((s.leg c).freezingParent)) hl4
          rw [unfreeze_cgroup_eq]
          rcases h4' with h | h
          · simp [h3'] at h
          · simp [updLeg, setFreezingBit, legFreezing, ho, hf, h3', h]
            try omega
        · rename_i h4
          have h4' : (s.leg c).freezingSelf = false ∧
              (s.leg c).freezingParent = false := by
            simpa [legFreezing] using h4
          rw [unfreeze_cgroup_eq]
          simp [updLeg, setFreezingBit, legFreezing, ho, hf, h4'.1, h4'.2]
          try omega
      · rename_i h3
        have h3' : (s.leg c).freezingSelf = true := by
          simpa [updLeg, setFreezingBit, legFreezing] using h3
        simp [updLeg, setFreezingBit, legFreezing, ho, hf, h3']
        try omega

/-- C9: for a single application of the legacy `freezer_apply_state` on
a duplicate-free group universe containing the target, the global
`system_freezing_cnt` is maintained as the number of online groups with
a non-empty `CGROUP_FREEZING` union (self or parent flag set), and it
changes by exactly +1 when an online group's union transitions from
empty to non-empty (a freeze request on a not-yet-freezing group), by
exactly -1 when the union transitions back to empty (clearing the last
set flag of a freezing group), and by 0 otherwise. -/
theorem C9_freezing_cnt (H : Hier) (s : State) (c : Nat) (f : Bool)
    (b : FreezingBit) (hnd : H.groups.Nodup) (hc : c ∈ H.groups)
    (hcnt : s.systemFreezingCnt =
      ((H.groups.filter
        (fun g => (s.leg g).online && legFreezing (s.leg g))).length : Int)) :
    (freezer_apply_state s c f b).systemFreezingCnt =
      ((H.groups.filter (fun g =>
          ((freezer_apply_state s c f b).leg g).online &&
          legFreezing ((freezer_apply_state s c f b).leg g))).length : Int) ∧
    (freezer_apply_state s c f b).systemFreezingCnt =
      s.systemFreezingCnt +
        (if (s.leg c).online && (f && !legFreezing (s.leg c)) then 1
         else if (s.leg c).online && (!f && (legFreezing (s.leg c) &&
             !legFreezing (setFreezingBit (s.leg c) b false))) then -1
         else 0) := by
  refine ⟨cnt_invariant_flip H.groups hnd c hc s.leg
    (freezer_apply_state s c f b).leg
    (fun x hx => apply_state_leg_ne s c f b x hx)
    s.systemFreezingCnt (freezer_apply_state s c f b).systemFreezingCnt hcnt
    (apply_state_cnt_delta s c f b), ?_⟩
  cases b
  · exact apply_cnt_cases_self s c f
  · exact apply_cnt_cases_parent s c f

theorem C9_freezing_cnt_witness :
    (freezer_apply_state sC9 1 false FreezingBit.self).systemFreezingCnt =
      ((HierW.groups.filter (fun g =>
          ((freezer_apply_state sC9 1 false FreezingBit.self).leg g).online &&
          legFreezing
            ((freezer_apply_state sC9 1 false
              FreezingBit.self).leg g))).length : Int) ∧
    (freezer_apply_state sC9 1 false FreezingBit.self).systemFreezingCnt =
      sC9.systemFreezingCnt +
        (if (sC9.leg 1).online && (false && !legFreezing (sC9.leg 1)) then 1
         else if (sC9.leg 1).online && (!false && (legFreezing (sC9.leg 1) &&
             !legFreezing (setFreezingBit (sC9.leg 1) FreezingBit.self
               false))) then -1
         else 0) :=
  C9_freezing_cnt HierW sC9 1 false FreezingBit.self (by decide) (by decide)
    (by decide)

lemma uid_foldl_last (tsk : Nat → TaskState) (t0 : Nat)
    (hc : (tsk t0).hasCred = true) :
    ∀ (l : List Nat), l.getLast? = some t0 → ∀ u,
      l.foldl (fun a t => if (tsk t).hasCred then (tsk t).uid else a) u =
        (tsk t0).uid := by
  intro l
  induction l with
  | nil => intro hl u; cases hl
  | cons x l ih =>
    intro hl u
    rw [List.foldl_cons]
    cases l with
    | nil =>
      have hx : x = t0 := by simpa using hl
      subst hx
      simp [hc]
    | cons y l' =>
      have hl' : (y :: l').getLast? = some t0 := by
        simpa [List.getLast?_cons_cons] using hl
      exact ih hl' _

/-- C10: the legacy `unfreeze_cgroup` thaws every task iterated from the
target group and, in addition, every thread in the whole system whose
real UID equals the real UID of the last (credentialled) task iterated
from the group — so whenever the group owns at least one task with
credentials, the thaw is not limited to the processes owned by the
group. -/
theorem C10_unfreeze_uid_broadened (s : State) (c t0 : Nat)
    (hlast : (tasksOf s c).getLast? = some t0)
    (hcred : (s.tsk t0).hasCred = true) :
    (∀ p ∈ tasksOf s c, Event.thaw p ∈ (unfreeze_cgroup s c).log) ∧
    (∀ p ∈ s.tids, (s.tsk p).hasCred = true →
      (s.tsk p).uid = (s.tsk t0).uid →
      Event.thaw p ∈ (unfreeze_cgroup s c).log) := by
  rw [unfreeze_cgroup_eq]
  have huid : (tasksOf s c).foldl
      (fun a t => if (s.tsk t).hasCred then (s.tsk t).uid else a)
      4294967295 = (s.tsk t0).uid :=
    uid_foldl_last s.tsk t0 hcred (tasksOf s c) hlast 4294967295
  constructor
  · intro p hp
    simp only [List.mem_append, List.mem_map]
    exact Or.inr (Or.inl ⟨p, hp, rfl⟩)
  · intro p hp hcp hup
    simp only [List.mem_append, List.mem_map]
    refine Or.inr (Or.inr ⟨p, ?_, rfl⟩)
    rw [List.mem_filter]
    refine ⟨hp, ?_⟩
    rw [huid]
    simp [hcp, hup]

theorem C10_unfreeze_uid_broadened_witness :
    (∀ p ∈ tasksOf sC10 1, Event.thaw p ∈ (unfreeze_cgroup sC10 1).log) ∧
    (∀ p ∈ sC10.tids, (sC10.tsk p).hasCred = true →
      (sC10.tsk p).uid = (sC10.tsk 5).uid →
      Event.thaw p ∈ (unfreeze_cgroup sC10 1).log) :=
  C10_unfreeze_uid_broadened sC10 1 5 (by decide) (by decide)

end CgroupFreezer
